import Mathlib

/-!
# Verification of the genpoly-fpg mutation engine against its specification

This file gives a shallow embedding, in Lean 4, of the parts of the
genpoly-fpg random-simple-polygon generator that the checked claims are
about, and proves or refutes each claim over that embedding.

Conventions used throughout:

* `double` values are embedded as exact rationals (`ℚ`).  The programs's
  floating-point rounding is not modelled; sign tests (`signbit`) and
  comparisons are therefore exact.  A C++ `double` constant such as `M_PI`
  is embedded as the exact rational value of that IEEE-754 double.
* C++ `int` is embedded as `ℤ`, `unsigned int` as `ℕ` taken mod `2 ^ 32`
  where wrap-around can matter; the truncating `%` of C++ is `Int.tmod`.
* Pointer structures (the triangulation's vertex/edge/triangle web, the
  selection tree, the retriangulation polygon chains) are embedded as
  explicit finite data: lists of vertex ids with coordinate tables,
  edges as vertex-id pairs with an edge kind, triangles as id triples
  with their `internal` flag.
* Functions whose definition is not part of the staged sources (only their
  declaration in a header is) are modelled from the specification; each such
  definition carries a doc comment starting `Modelled from the spec:`.
-/

/-! ## Points and the orientation determinant (triangle.cpp) -/

/-- A 2D point with exact rational coordinates, standing for a pair of
`double` coordinates of a `Vertex`. -/
structure Pt where
  x : ℚ
  y : ℚ
deriving DecidableEq, Repr

/-- `Triangle::det(V0, V1, V2)` from triangle.cpp: the vertices are shifted
so that `V0` is at the origin and the 2x2 determinant is computed as
`area = cy * bx - by * cx`. -/
def tDet (a b c : Pt) : ℚ :=
  (c.y - a.y) * (b.x - a.x) - (b.y - a.y) * (c.x - a.x)

/-- `std::signbit` on an exact rational: true iff the value is negative.
(The embedding has no IEEE negative zero; every claim that relies on a sign
test either assumes the tested value nonzero or is checked on concrete
nonzero inputs.) -/
def signbit (q : ℚ) : Bool :=
  q < 0

/-- The coordinate-lexicographic comparison `Vertex::operator<` from
vertex.h (`x` first, then `y`). -/
def ptLt (a b : Pt) : Bool :=
  if a.x < b.x then true
  else if a.x == b.x then decide (a.y < b.y)
  else false

/-- `Triangle::signedAreaDouble()` from triangle.cpp: the three vertices are
put into coordinate-lexicographic order before `det` is applied and the sign
of the result is corrected for the permutation used. -/
def signedAreaDouble (a b c : Pt) : ℚ :=
  if ptLt a b ∧ ptLt a c then
    (if ptLt b c then tDet a b c else - (tDet a c b))
  else if ptLt b a ∧ ptLt b c then
    (if ptLt a c then - (tDet b a c) else tDet b c a)
  else
    (if ptLt a b then tDet c a b else - (tDet c b a))

/-! ## C9 — `TPolygon::getVertex` and the truncating `%` (tpolygon.cpp) -/

/-- The index computation of `TPolygon::getVertex(i)` from tpolygon.cpp:
`vertices[i % n]` where `i` and `n = vertices.size()` are C++ `int`s, so `%`
is the truncating remainder (`Int.tmod`). -/
def getVertexIndex (i n : ℤ) : ℤ :=
  Int.tmod i n

/-! ## C8 — `strategyWithHoles1` growth phases (polygonTransformer.cpp) -/

/-- Reinterpretation of an unsigned 32-bit value as a C++ `int`
(two's complement). -/
def toInt32 (v : ℕ) : ℤ :=
  if v % 2 ^ 32 < 2 ^ 31 then ((v % 2 ^ 32 : ℕ) : ℤ)
  else ((v % 2 ^ 32 : ℕ) : ℤ) - 2 ^ 32

/-- Evaluation of an integer expression in C++ `unsigned int` arithmetic:
the value mod `2 ^ 32` as a natural number. -/
def u32 (x : ℤ) : ℕ :=
  (x % 2 ^ 32).toNat

/-- The outer-growth insertion count of `strategyWithHoles1`
(polygonTransformer.cpp, lines 489-495): with `k = Settings::nrInnerPolygons`
and `actualN` the current outer ring size,
`if (outerSize >= (unsigned)(10 * k - actualN)) nrInsertions = 5 * k - actualN;
else nrInsertions = outerSize - actualN;` — all mixed `unsigned`/`int`
arithmetic evaluated mod `2 ^ 32`. -/
def holes1OuterInsertions (outerSize k : ℕ) (actualN : ℤ) : ℤ :=
  if u32 (10 * (k : ℤ) - actualN) ≤ outerSize % 2 ^ 32 then
    toInt32 (u32 (5 * (k : ℤ) - actualN))
  else
    toInt32 (u32 ((outerSize : ℤ) - actualN))

/-- The outer ring size after the first growth phase of `strategyWithHoles1`
(lines 489-507): `growPolygonBy` runs only when the insertion count is
positive, and then inserts exactly that many vertices. -/
def holes1OuterFinal (outerSize k : ℕ) (actualN : ℤ) : ℤ :=
  let nr := holes1OuterInsertions outerSize k actualN
  if 0 < nr then actualN + nr else actualN

/-- The per-hole insertion count of `strategyWithHoles1` (lines 522-526):
`if (innerSizes[i-1] >= 20) nrInsertions = 17; else
nrInsertions = innerSizes[i-1] - 3;`. -/
def holes1HoleInsertions (target : ℕ) : ℤ :=
  if 20 ≤ target % 2 ^ 32 then 17
  else toInt32 (u32 ((target : ℤ) - 3))

/-- The size of one hole after the hole-growth phase of `strategyWithHoles1`
(lines 522-539): each hole is created with 3 vertices by `insertHole`, and
grows only when the insertion count is positive. -/
def holes1HoleFinal (target : ℕ) : ℤ :=
  let nr := holes1HoleInsertions target
  if 0 < nr then 3 + nr else 3

/-! ## The SelectionTree (selectionTree.h, stentry.h) — C5 and C6 -/

/-- One node web of a `SelectionTree`: `leaf` stands for a NULL child
pointer, a `node` for an `STEntry` whose `element` is empty (`none`) after
`removeObject()` or holds an object.  The cached weights and element counts
of `STEntry` are recomputed structurally (`stTotalWeight`, `stNodeCount`),
which is exactly the state the `update()` propagation maintains. -/
inductive STree (α : Type) where
  | leaf : STree α
  | node (elem : Option α) (l r : STree α) : STree α
deriving DecidableEq, Repr

/-- `STEntry::nrElementsTotal`: every existing node counts one, empty or
not (`removeObject()` does not decrement the counts). -/
def stNodeCount {α : Type} : STree α → ℕ
  | .leaf => 0
  | .node _ l r => 1 + stNodeCount l + stNodeCount r

/-- `STEntry::elementWeight` in weighted mode: the object's weight, or `0`
for an emptied node. -/
def elemWeight {α : Type} (w : α → ℚ) : Option α → ℚ
  | none => 0
  | some a => w a

/-- `STEntry::totalWeight` in weighted mode:
`elementWeight + leftWeight + rightWeight`. -/
def stTotalWeight {α : Type} (w : α → ℚ) : STree α → ℚ
  | .leaf => 0
  | .node e l r => elemWeight w e + stTotalWeight w l + stTotalWeight w r

/-- `SelectionTree::insert` when no empty node is queued: descend into the
subtree with fewer elements (`getLighterSubtree`, left on ties) until a NULL
child is found and attach a fresh occupied node there (`addChild`). -/
def stInsertNew {α : Type} (x : α) : STree α → STree α
  | .leaf => .node (some x) .leaf .leaf
  | .node e l r =>
    if stNodeCount l ≤ stNodeCount r then .node e (stInsertNew x l) r
    else .node e l (stInsertNew x r)

/-- `STEntry::setObject` on the node at a root path (`false` = left child,
`true` = right child): the element is overwritten unconditionally (the code
does no emptiness check).  Invalid paths leave the tree unchanged. -/
def stSetAtPath {α : Type} (x : α) : STree α → List Bool → STree α
  | .node _ l r, [] => .node (some x) l r
  | .node e l r, false :: p => .node e (stSetAtPath x l p) r
  | .node e l r, true :: p => .node e l (stSetAtPath x r p)
  | .leaf, _ => .leaf

/-- A `SelectionTree` (weighted mode): the root and the queue of empty
nodes, each given by its path from the root. -/
structure SelTree (α : Type) where
  root : STree α
  empties : List (List Bool)
deriving DecidableEq, Repr

/-- `SelectionTree::insert(e)`: reuse the first queued empty node if one
exists, else attach a new node along the lighter-subtree path. -/
def stInsert {α : Type} (x : α) (s : SelTree α) : SelTree α :=
  match s.empties with
  | [] => ⟨stInsertNew x s.root, []⟩
  | p :: ps => ⟨stSetAtPath x s.root p, ps⟩

/-- The `TEdge` kinds of tedge.h. -/
inductive EdgeKind where
  | polygonK : EdgeKind
  | frameK : EdgeKind
  | triangulationK : EdgeKind
deriving DecidableEq, Repr

/-- `Triangulation::addEdge(e, pID)` from triangulation.cpp restricted to
its SelectionTree effect: when weighted edge selection is on and the edge is
a POLYGON edge, `TPolygon::addEdge` is called, which is a bare
`tree.insert(e)` (tpolygon.cpp, lines 67-69) — there is no check whether the
edge already has an `STEntry`. -/
def triangulationAddEdge {α : Type} (weightedSel : Bool) (kind : EdgeKind)
    (x : α) (s : SelTree α) : SelTree α :=
  if weightedSel = true ∧ kind = EdgeKind.polygonK then stInsert x s else s

/-! ## C5 — weighted random selection (`STEntry::getRandomChild`,
`SelectionTree::getRandomObject`) -/

/-- The three outcomes of `STEntry::getRandomChild`. -/
inductive STDir where
  | left : STDir
  | right : STDir
  | here : STDir
deriving DecidableEq, Repr

/-- `STEntry::getRandomChild` as a function of the drawn value
`u ∈ [0, totalWeight)` (stentry.h, lines 209-219):
`if (nrElementsLeft != 0 && u < leftWeight) return leftChild;
if (nrElementsRight != 0 && u < leftWeight + rightWeight) return rightChild;
return this;`. -/
def getRandomChildDir {α : Type} (w : α → ℚ) : STree α → ℚ → STDir
  | .leaf, _ => .here
  | .node _ l r, u =>
    if stNodeCount l ≠ 0 ∧ u < stTotalWeight w l then .left
    else if stNodeCount r ≠ 0 ∧ u < stTotalWeight w l + stTotalWeight w r then .right
    else .here

/-- `SelectionTree::getRandomObject` (selectionTree.h, lines 141-156):
starting at the root, repeatedly draw a fresh uniform value and descend to
the child `getRandomChild` selects, until a node selects itself; return that
node's object.  One drawn value is consumed per visited node; `none` stands
for a NULL result (empty tree) or an exhausted draw list. -/
def getRandomObject {α : Type} (w : α → ℚ) : STree α → List ℚ → Option α
  | .leaf, _ => none
  | .node _ _ _, [] => none
  | .node e l r, u :: us =>
    match getRandomChildDir w (.node e l r) u with
    | .left => getRandomObject w l us
    | .right => getRandomObject w r us
    | .here => e

/-- The probability that the independent-uniform descent of
`getRandomObject` reaches an occupied node holding `i`: at every node the
draw is uniform on `[0, totalWeight)`, so by the partition established in
`getRandomChild_partition` the left child is entered with probability
`leftWeight / totalWeight`, the right child with
`rightWeight / totalWeight`, and the node's own element is selected with
probability `elementWeight / totalWeight`. -/
def stProbReach {α : Type} [DecidableEq α] (w : α → ℚ) (i : α) : STree α → ℚ
  | .leaf => 0
  | .node e l r =>
    (stTotalWeight w l / stTotalWeight w (.node e l r)) * stProbReach w i l
      + (stTotalWeight w r / stTotalWeight w (.node e l r)) * stProbReach w i r
      + (if e = some i then elemWeight w e / stTotalWeight w (.node e l r) else 0)

/-- The total weight of the occurrences of `i` among the occupied nodes. -/
def stWeightIn {α : Type} [DecidableEq α] (w : α → ℚ) (i : α) : STree α → ℚ
  | .leaf => 0
  | .node e l r =>
    (if e = some i then w i else 0) + stWeightIn w i l + stWeightIn w i r

/-- The number of occupied nodes holding `i`. -/
def stOccCount {α : Type} [DecidableEq α] (i : α) : STree α → ℕ
  | .leaf => 0
  | .node e l r =>
    (if e = some i then 1 else 0) + stOccCount i l + stOccCount i r

/-- Every occupied node of the tree holds an object of positive weight. -/
def allPosWeights {α : Type} (w : α → ℚ) : STree α → Bool
  | .leaf => true
  | .node none l r => allPosWeights w l && allPosWeights w r
  | .node (some a) l r => decide (0 < w a) && allPosWeights w l && allPosWeights w r

/-! ## C7 — `Insertion::translate` retry loop (insertion.cpp) -/

/-- The `enum Executed` of translation.h: `full`/`rejected`/`partway`/
`undone` stand for `FULL`/`REJECTED`/`PARTIAL`/`UNDONE`. -/
inductive ExecOutcome where
  | full : ExecOutcome
  | rejected : ExecOutcome
  | partway : ExecOutcome
  | undone : ExecOutcome
deriving DecidableEq, Repr

/-- One candidate translation of `Insertion::translate`: whether
`checkOverroll()` reports an overroll, whether
`checkSimplicityOfTranslation()` reports the result simple, and the
outcome `execute()` would return if called.  The random direction and
distance sampled for the attempt only influence these three values. -/
structure TransAttempt where
  overroll : Bool
  simple : Bool
  outcome : ExecOutcome
deriving DecidableEq, Repr

/-- An attempt on which the loop of `Insertion::translate` stops: no
overroll and the simplicity check passed.  The outcome of `execute()` is
*not* part of the condition — the loop variable `simple` is set before
`execute()` runs and never updated from its result. -/
def attemptPasses (a : TransAttempt) : Prop :=
  a.overroll = false ∧ a.simple = true

instance (a : TransAttempt) : Decidable (attemptPasses a) := by
  unfold attemptPasses; infer_instance

/-- The `while (!simple && count < Settings::insertionTries)` loop of
`Insertion::translate` (insertion.cpp, lines 164-197), with
`fuel = tries - count` draws remaining: returns the final `count` and the
index of the attempt whose translation was executed, if any. -/
def translateGo (attempts : ℕ → TransAttempt) : ℕ → ℕ → ℕ × Option ℕ
  | 0, count => (count, none)
  | fuel + 1, count =>
    if attemptPasses (attempts count) then (count + 1, some count)
    else translateGo attempts fuel (count + 1)

/-- `Insertion::translate` with `Settings::insertionTries = tries`, given
the stream of candidate attempts the random sampling produces. -/
def insertionTranslate (attempts : ℕ → TransAttempt) (tries : ℕ) : ℕ × Option ℕ :=
  translateGo attempts tries 0

/-! ## C2 — initial event queue of a kinetic translation
(translationKinetic.cpp, triangle.cpp) -/

/-- `Triangle::calculateCollapseTime` (triangle.cpp, lines 706-749) after
the moving vertex has been identified: `a`, `b` are the two static vertices
of the triangle, `c` the moving vertex, `(dx, dy)` the translation vector.
The vertices are shifted so that `a` is at the origin, and
`1 / (areaNew / areaOld + 1)` is returned. -/
def calculateCollapseTime (a b c : Pt) (dx dy : ℚ) : ℚ :=
  let bX := b.x - a.x
  let bY := b.y - a.y
  let cX := c.x - a.x
  let cY := c.y - a.y
  let eX := cX + dx
  let eY := cY + dy
  let areaOld := cX * bY - cY * bX
  let areaNew := bX * eY - bY * eX
  let portion := areaNew / areaOld
  1 / (portion + 1)

/-- The dispatch at the start of `calculateCollapseTime`: the static
vertices are the two triangle vertices that are not the moving one, kept in
triangle order. -/
def collapseTimeAt (v0 v1 v2 : Pt) (m : Fin 3) (dx dy : ℚ) : ℚ :=
  match m with
  | 0 => calculateCollapseTime v1 v2 v0 dx dy
  | 1 => calculateCollapseTime v0 v2 v1 dx dy
  | 2 => calculateCollapseTime v0 v1 v2 dx dy

/-- What `TranslationKinetic::generateInitialQueue` does with one triangle
incident to the moving vertex. -/
inductive QueueAction where
  | securityFlip : QueueAction
  | skip : QueueAction
  | enqueue (t : ℚ) : QueueAction
deriving DecidableEq, Repr

/-- The per-triangle body of `TranslationKinetic::generateInitialQueue`
(translationKinetic.cpp, lines 86-142): `p`, `q` are the endpoints of the
triangle's edge opposite the moving vertex, `oldV` the start position and
`oldV + (dx, dy)` the target position.  A zero starting area triggers the
security flip (and rejection); a nonzero `areaNew` of equal sign skips the
triangle; otherwise the collapse time is computed, clamped into `[0, 1]`,
and the triangle is enqueued. -/
def initialQueueStep (p q oldV : Pt) (dx dy : ℚ) : QueueAction :=
  let newV : Pt := ⟨oldV.x + dx, oldV.y + dy⟩
  let areaOld := signedAreaDouble p q oldV
  if areaOld = 0 then .securityFlip
  else
    let areaNew := signedAreaDouble p q newV
    if areaNew ≠ 0 ∧ signbit areaOld = signbit areaNew then .skip
    else
      let t := collapseTimeAt p q oldV 2 dx dy
      let t1 := if t < 0 then 0 else t
      let t2 := if 1 < t1 then 1 else t1
      .enqueue t2

/-! ## C10 — `Vertex::getDirectedEdgeLength` (vertex.cpp) and
`Triangle::getRange` (triangle.cpp) -/

/-- The exact rational value of the IEEE-754 double constant `M_PI`
(`0x1.921fb54442d18p+1`). -/
def piDouble : ℚ :=
  884279719003555 / 281474976710656

/-- One triangle incident to the vertex `v`, reduced to what
`Triangle::getRange(v, alpha)` reads from it: the `getAngle(v)` values of
its two edges incident to `v` (angles in `(-pi, pi]`, computed by `atan2`
in the program and taken here as given rationals) and the lengths of those
two edges. -/
structure IncidentTri where
  eAngle : ℚ
  fAngle : ℚ
  eLen : ℚ
  fLen : ℚ
deriving DecidableEq, Repr

/-- The direction test of `Triangle::getRange` (triangle.cpp, lines
522-545): with the two incident-edge angles ordered as
`alpha1 ≥ alpha2`, the triangle lies in direction `alpha` iff
`alpha2 ≤ alpha ≤ alpha1` when `alpha1 - alpha2 ≤ M_PI`, and iff
`alpha ≥ alpha1 ∨ alpha ≤ alpha2` otherwise. -/
def coversDir (t : IncidentTri) (alpha : ℚ) : Bool :=
  let a1 := max t.eAngle t.fAngle
  let a2 := min t.eAngle t.fAngle
  if a1 - a2 ≤ piDouble then decide (alpha ≤ a1 ∧ a2 ≤ alpha)
  else decide (a1 ≤ alpha ∨ alpha ≤ a2)

/-- `l = (e.length() + f.length()) / 2` of `Triangle::getRange`. -/
def meanLen (t : IncidentTri) : ℚ :=
  (t.eLen + t.fLen) / 2

/-- `Triangle::getRange(v, alpha)`: the mean length of the two edges
incident to `v` when the triangle lies in direction `alpha`, else `-1`. -/
def getRange (t : IncidentTri) (alpha : ℚ) : ℚ :=
  if coversDir t alpha then meanLen t else -1

/-- `Vertex::getMediumEdgeLength()` (vertex.cpp, lines 304-313): the mean
of the lengths of all edges incident to the vertex. -/
def getMediumEdgeLength (ls : List ℚ) : ℚ :=
  ls.sum / ls.length

/-- `Vertex::getDirectedEdgeLength(alpha)` (vertex.cpp, lines 331-348):
the first incident triangle whose `getRange` is positive wins; if none is
found the negated medium edge length is returned. -/
def getDirectedEdgeLength (ts : List IncidentTri) (edgeLens : List ℚ)
    (alpha : ℚ) : ℚ :=
  match ts with
  | [] => - getMediumEdgeLength edgeLens
  | t :: rest =>
    if 0 < getRange t alpha then getRange t alpha
    else getDirectedEdgeLength rest edgeLens alpha

/-! ## A concrete triangulation state (vertex/edge/triangle web)

The pointer web of `Vertex`/`TEdge`/`Triangle` is embedded as explicit
lists: vertices as `(id, coordinates)` pairs in `vertices`-vector order,
edges as endpoint-id pairs with their `EdgeType`, triangles as id triples
with their `internal` flag.  Edges are unordered for membership tests
(`TEdge::contains`), kept in creation order. -/

/-- An embedded `TEdge`: endpoint ids in constructor order and the edge
type. -/
structure MEdge where
  a : ℕ
  b : ℕ
  kind : EdgeKind
deriving DecidableEq, Repr

/-- An embedded `Triangle`: vertex ids in constructor order and the
`internal` flag. -/
structure MTri where
  a : ℕ
  b : ℕ
  c : ℕ
  internal : Bool
deriving DecidableEq, Repr

/-- An embedded `Triangulation` fragment: the global vertex list, one
polygon ring's vertex vector, and the edge and triangle webs. -/
structure TriState where
  verts : List (ℕ × Pt)
  ring : List ℕ
  edges : List MEdge
  tris : List MTri
deriving DecidableEq, Repr

/-- `TEdge::contains(v)` for both endpoints `u`, `v`: the edge joins the
two given vertices (in either order). -/
def edgeConnects (e : MEdge) (u v : ℕ) : Bool :=
  (e.a = u ∧ e.b = v) ∨ (e.a = v ∧ e.b = u)

/-- `Triangle::contains(v)`. -/
def triHasVert (t : MTri) (v : ℕ) : Bool :=
  t.a = v ∨ t.b = v ∨ t.c = v

/-- A triangle contains the edge joining `u` and `v`. -/
def triHasEdge (t : MTri) (u v : ℕ) : Bool :=
  triHasVert t u ∧ triHasVert t v

/-- `Triangle::getOtherVertex(e)` for the edge joining `u` and `v`: the
first vertex of the triangle not contained in the edge. -/
def triOtherVertex (t : MTri) (u v : ℕ) : ℕ :=
  if t.a ≠ u ∧ t.a ≠ v then t.a
  else if t.b ≠ u ∧ t.b ≠ v then t.b
  else t.c

/-- The coordinates of vertex `v` in the state (first match in the vertex
list). -/
def coordOf (s : TriState) (v : ℕ) : Pt :=
  ((s.verts.find? (fun p => p.1 = v)).map Prod.snd).getD ⟨0, 0⟩

/-- The triangles registered at the edge joining `u` and `v` (the
`t0`/`t1` pointers of `TEdge`), in triangle-list order. -/
def trisWithEdge (s : TriState) (u v : ℕ) : List MTri :=
  s.tris.filter (fun t => triHasEdge t u v)

/-! ## C3 — `Insertion::execute` (insertion.cpp) -/


/-- `Insertion::execute()` (insertion.cpp, lines 98-146) on the POLYGON
edge `(v0, v1)` of the chosen ring, with `m` the id of the new vertex:

1. the new vertex is placed at
   `(v0.x + (v1.x - v0.x)/2, v0.y + (v1.y - v0.y)/2)` and appended to the
   triangulation's vertex list and to the ring (`Triangulation::addVertex`);
2. the edge is destroyed — its destructor also destroys the two incident
   triangles `t0 = (v0, v1, a)` and `t1 = (v0, v1, b)`;
3. POLYGON edges `(v0, m)` and `(m, v1)` and TRIANGULATION edges
   `(m, a)`, `(m, b)` are created;
4. four triangles `(v0, m, a)`, `(v0, m, b)`, `(v1, m, a)`, `(v1, m, b)`
   are created.

Modelled from the spec: the `internal` flags of the four created
triangles.  The staged insertion.cpp predates triangle.h's
edge-constructor (which requires an explicit `intern` argument, missing at
these call sites), so the flag assignment is taken from the spec's
sentence — the flags are inherited from the two destroyed triangles
respectively (`t0.internal` for the `a`-triangles, `t1.internal` for the
`b`-triangles). -/
def insertionExecute (s : TriState) (v0 v1 m : ℕ) : TriState :=
  let p0 := coordOf s v0
  let p1 := coordOf s v1
  let x := p0.x + (p1.x - p0.x) / 2
  let y := p0.y + (p1.y - p0.y) / 2
  match trisWithEdge s v0 v1 with
  | [t0, t1] =>
    let a := triOtherVertex t0 v0 v1
    let b := triOtherVertex t1 v0 v1
    { verts := s.verts ++ [(m, ⟨x, y⟩)]
      ring := s.ring ++ [m]
      edges := (s.edges.filter (fun e => ! edgeConnects e v0 v1)) ++
        [⟨v0, m, .polygonK⟩, ⟨m, v1, .polygonK⟩,
         ⟨m, a, .triangulationK⟩, ⟨m, b, .triangulationK⟩]
      tris := (s.tris.filter (fun t => ! triHasEdge t v0 v1)) ++
        [⟨v0, m, a, t0.internal⟩, ⟨v0, m, b, t1.internal⟩,
         ⟨v1, m, a, t0.internal⟩, ⟨v1, m, b, t1.internal⟩] }
  | _ => s

/-- A concrete quadrilateral state for the C3 witness: POLYGON edge
`(0, 1)` with apexes `2` (internal triangle) and `3` (external
triangle). -/
def insertionWitnessState : TriState :=
  { verts := [(0, ⟨0, 0⟩), (1, ⟨2, 0⟩), (2, ⟨1, 1⟩), (3, ⟨1, -1⟩)]
    ring := [0, 1]
    edges := [⟨0, 1, .polygonK⟩, ⟨0, 2, .triangulationK⟩,
      ⟨1, 2, .triangulationK⟩, ⟨0, 3, .triangulationK⟩,
      ⟨1, 3, .triangulationK⟩]
    tris := [⟨0, 1, 2, true⟩, ⟨0, 1, 3, false⟩] }

/-- Polygon::insideTriangle (polygon.cpp lines 224-248): signbit-based
containment test of the vertex toCheck in the triangle (v0, v1, v2),
comparing the signbits of the three signed areas with early returns. -/
def insideTriangle (v0 v1 v2 toCheck : Pt) : Bool :=
  let area0 := signedAreaDouble v0 v1 toCheck
  if signbit area0 ≠ signbit (signedAreaDouble v1 v2 toCheck) then false
  else if signbit area0 ≠ signbit (signedAreaDouble v2 v0 toCheck) then false
  else true

/-- The clip condition of the loop body of Polygon::triangulateStar
(polygon.cpp lines 58-70): the ear (v0, v1, v2) is cut iff the kernel is
not inside the ear triangle, the ear's signed area is nonzero, and the
area's signbit equals the signbit of the reference determinant rd. -/
def clipCond (k : Pt) (rd : ℚ) (v0 v1 v2 : Pt) : Bool :=
  !insideTriangle v0 v1 v2 k && decide (signedAreaDouble v0 v1 v2 ≠ 0) &&
    (signbit (signedAreaDouble v0 v1 v2) == signbit rd)

/-- State of the triangulateStar walk: the cyclic polygonal chain, listed
so that the current window (v0, v1, v2) is its first three entries, the
triangles created so far, and the diagonals added to the triangulation. -/
structure StarState where
  chain : List Pt
  tris : List (Pt × Pt × Pt)
  diags : List (Pt × Pt)

/-- Moving the chain's entry point one vertex backwards, as the
backtracking step after a cut does (polygon.cpp lines 81-84). -/
def rotateRight {α : Type} (l : List α) : List α :=
  match l.getLast? with
  | none => []
  | some x => x :: l.dropLast

/-- One iteration of the while(n > 3) loop of triangulateStar (polygon.cpp
lines 55-103): when the clip condition holds, cut the ear (v0, v1, v2),
record the triangle and the new diagonal (v0, v2) and backtrack one
vertex; otherwise advance the window by one vertex. -/
def starStep (k : Pt) (rd : ℚ) (s : StarState) : StarState :=
  match s.chain with
  | v0 :: v1 :: v2 :: rest =>
    if clipCond k rd v0 v1 v2 then
      { chain := rotateRight (v0 :: v2 :: rest)
        tris := s.tris ++ [(v0, v1, v2)]
        diags := s.diags ++ [(v0, v2)] }
    else
      { s with chain := v1 :: v2 :: rest ++ [v0] }
  | _ => s

/-- The while(n > 3) loop of triangulateStar, fuelled. -/
def starLoop (k : Pt) (rd : ℚ) : ℕ → StarState → StarState
  | 0, s => s
  | fuel + 1, s =>
    if 3 < s.chain.length then starLoop k rd fuel (starStep k rd s) else s

/-- triangulateStar after the loop (polygon.cpp lines 104-119): emit the
final triangle of the three remaining vertices and empty the chain
(n = 0, startVertex = NULL). -/
def triangulateStarRun (k : Pt) (rd : ℚ) (fuel : ℕ) (s : StarState) :
    StarState :=
  match starLoop k rd fuel s with
  | ⟨[x, y, z], ts, es⟩ => ⟨[], ts ++ [(x, y, z)], es⟩
  | s' => s'

/-- The reference determinant of triangulateStar (polygon.cpp lines
45-53): the signed area of the first two chain vertices with the
kernel. -/
def starReferenceDet (k : Pt) (l : List Pt) : ℚ :=
  match l with
  | p0 :: p1 :: _ => signedAreaDouble p0 p1 k
  | _ => 0

/-- Polygon::triangulateStar entry point: compute the reference
determinant, run the clipping loop and emit the final triangle. -/
def triangulateStar (k : Pt) (fuel : ℕ) (l : List Pt) : StarState :=
  triangulateStarRun k (starReferenceDet k l) fuel ⟨l, [], []⟩

/-- The spec's strict-interior predicate: p lies strictly inside the
triangle (v0, v1, v2) iff the three orientation determinants share a
strict sign. -/
def strictlyInside (v0 v1 v2 p : Pt) : Prop :=
  (0 < tDet v0 v1 p ∧ 0 < tDet v1 v2 p ∧ 0 < tDet v2 v0 p) ∨
    (tDet v0 v1 p < 0 ∧ tDet v1 v2 p < 0 ∧ tDet v2 v0 p < 0)

/-- The spec's same-sign relation on two nonzero reals. -/
def sameSign (x y : ℚ) : Prop :=
  (0 < x ∧ 0 < y) ∨ (x < 0 ∧ y < 0)

/-! ## C1 — translation UNDONE behaviour -/

/-- An entry of the FlipStack of TranslationKinetic (pushed as
Flip(vj0, vj1, vn0, vn1) in flip(), translationKinetic.cpp lines 425-427).
The struct itself is declared in the kinetic header, which is absent from
the snapshot; the field mapping is modelled from the spec: each entry
names the restored diagonal (oldD0, oldD1) — the endpoints of the deleted
edge — and the deleted diagonal (newD0, newD1) — the two apexes joined by
the flip. -/
structure Flip where
  oldD0 : ℕ
  oldD1 : ℕ
  newD0 : ℕ
  newD1 : ℕ
deriving DecidableEq, Repr

/-- Triangle::isInternal() of the t0 pointer of the edge joining u and v:
the internal flag of the first registered triangle at the edge. -/
def firstTriInternal (s : TriState) (u v : ℕ) : Bool :=
  (((s.tris.filter (fun t => triHasEdge t u v)).head?).map MTri.internal).getD
    false

/-- The triangulation mutation of one flip (TranslationKinetic::flip,
translationKinetic.cpp lines 398-418): the edge (vj0, vj1) is deleted —
its destructor also destroys the two incident triangles — a new
TRIANGULATION edge (vn0, vn1) is created, and the two triangles
(vn0, vn1, vj0) and (vn0, vn1, vj1) are created with the internal flag of
the collapsing triangle. -/
def applyFlip (s : TriState) (f : Flip) : TriState :=
  let intern := firstTriInternal s f.oldD0 f.oldD1
  { s with
    edges := (s.edges.filter (fun e => ! edgeConnects e f.oldD0 f.oldD1)) ++
      [⟨f.newD0, f.newD1, .triangulationK⟩]
    tris := (s.tris.filter (fun t => ! triHasEdge t f.oldD0 f.oldD1)) ++
      [⟨f.newD0, f.newD1, f.oldD0, intern⟩,
       ⟨f.newD0, f.newD1, f.oldD1, intern⟩] }

/-- One step of TranslationKinetic::undo (translationKinetic.cpp lines
719-742): the edge (newD0, newD1) is looked up and deleted — destroying
its incident triangles — the old edge (oldD0, oldD1) is recreated, and
the two triangles (oldD0, oldD1, newD0) and (oldD0, oldD1, newD1) are
recreated with the internal flag read off the deleted edge's first
triangle. -/
def undoFlip (s : TriState) (f : Flip) : TriState :=
  let intern := firstTriInternal s f.newD0 f.newD1
  { s with
    edges := (s.edges.filter (fun e => ! edgeConnects e f.newD0 f.newD1)) ++
      [⟨f.oldD0, f.oldD1, .triangulationK⟩]
    tris := (s.tris.filter (fun t => ! triHasEdge t f.newD0 f.newD1)) ++
      [⟨f.oldD0, f.oldD1, f.newD0, intern⟩,
       ⟨f.oldD0, f.oldD1, f.newD1, intern⟩] }

/-- The flips executed during a translation, in chronological order. -/
def applyFlips : TriState → List Flip → TriState
  | s, [] => s
  | s, f :: fs => applyFlips (applyFlip s f) fs

/-- The undo loop of TranslationKinetic::undo: pop the stack (most recent
flip first) and undo each flip. -/
def undoStack : TriState → List Flip → TriState
  | s, [] => s
  | s, f :: fs => undoStack (undoFlip s f) fs

/-- Vertex::setPosition on the embedded vertex list. -/
def setPosition (s : TriState) (v : ℕ) (p : Pt) : TriState :=
  { s with verts := s.verts.map (fun pr => if pr.1 = v then (pr.1, p) else pr) }

/-- TranslationKinetic::undo after a failed surrounding-polygon check:
replay the flip stack in reverse and reset the moving vertex to its start
position (translationKinetic.cpp lines 715-748). -/
def kineticUndoRun (s : TriState) (stack : List Flip) (orig : ℕ)
    (oldPos : Pt) : TriState :=
  setPosition (undoStack s stack) orig oldPos

/-- A flip is well-formed in a state: the diagonal to delete is present
exactly once with TRIANGULATION type, its incident triangles are exactly
the two triangles of the flip quadrilateral (stored in the orientation the
flip recreates them in, with one shared internal flag), and the new
diagonal and its tris do not exist yet. -/
def flipOK (s : TriState) (f : Flip) : Prop :=
  s.edges.filter (fun e => edgeConnects e f.oldD0 f.oldD1) =
    [⟨f.oldD0, f.oldD1, .triangulationK⟩] ∧
  s.tris.filter (fun t => triHasEdge t f.oldD0 f.oldD1) =
    [⟨f.oldD0, f.oldD1, f.newD0, firstTriInternal s f.oldD0 f.oldD1⟩,
     ⟨f.oldD0, f.oldD1, f.newD1, firstTriInternal s f.oldD0 f.oldD1⟩] ∧
  s.edges.filter (fun e => edgeConnects e f.newD0 f.newD1) = [] ∧
  s.tris.filter (fun t => triHasEdge t f.newD0 f.newD1) = []

/-- Every flip of the sequence is well-formed in the state it is applied
to. -/
def ValidFlipSeq : TriState → List Flip → Prop
  | _, [] => True
  | s, f :: fs => flipOK s f ∧ ValidFlipSeq (applyFlip s f) fs

/-- Two states hold the same triangulation: identical vertices and rings,
and the same edge and triangle collections up to storage order. -/
def Restores (x y : TriState) : Prop :=
  x.verts = y.verts ∧ x.ring = y.ring ∧ x.edges.Perm y.edges ∧
    x.tris.Perm y.tris

/-! ### The retriangulation variant (translationRetriangulation.cpp).
The snapshot has no tedge.cpp, so checkIntersection is modelled from the
spec (section 4.1); everything else is translated from
translationRetriangulation.cpp, polygon.cpp, triangle.cpp and the
headers.  Triangle edge pointers are recovered by endpoint lookup in the
edge list (valid while the state has at most one edge per vertex pair),
and the getT0/getT1 registration order is the triangle-list order. -/

/-- IntersectionType from tedge.h. -/
inductive ITy where
  | iNone
  | iEdge
  | iVertex
deriving DecidableEq, Repr

/-- The bounding-rectangle test used by the VERTEX classification.
Modelled from the spec: "whose endpoint lies inside the bounding
rectangle of the other segment". -/
def inBBox (p a b : Pt) : Bool :=
  min a.x b.x ≤ p.x && p.x ≤ max a.x b.x && min a.y b.y ≤ p.y &&
    p.y ≤ max a.y b.y

/-- The exact rational value of the double constant
Settings::epsInt = 0.000000000001 (settings.h line 95). -/
def epsIntD : ℚ :=
  4951760157141521 / 4951760157141521099596496896

/-- checkIntersection on the segments (p0, p1) and (q0, q1).  Modelled
from the spec (section 4.1, tedge.cpp being absent from the snapshot):
compute the four orientations of each endpoint against the other segment;
a single orientation with absolute value below eps whose endpoint lies in
the other segment's bounding rectangle gives VERTEX; otherwise EDGE iff
the two orientations of each segment's endpoints differ in sign; NONE
otherwise. -/
def checkIntersectionE (eps : ℚ) (p0 p1 q0 q1 : Pt) : ITy :=
  let d0 := signedAreaDouble q0 q1 p0
  let d1 := signedAreaDouble q0 q1 p1
  let d2 := signedAreaDouble p0 p1 q0
  let d3 := signedAreaDouble p0 p1 q1
  if (|d0| < eps && inBBox p0 q0 q1) || (|d1| < eps && inBBox p1 q0 q1) ||
      (|d2| < eps && inBBox q0 p0 p1) || (|d3| < eps && inBBox q1 p0 p1) then
    .iVertex
  else if (signbit d0 ≠ signbit d1) && (signbit d2 ≠ signbit d3) then
    .iEdge
  else
    .iNone

/-- checkIntersection(e0, e1, precise): eps is 0 when precise and
Settings::epsInt otherwise. -/
def checkIntersection (precise : Bool) (p0 p1 q0 q1 : Pt) : ITy :=
  checkIntersectionE (if precise then 0 else epsIntD) p0 p1 q0 q1

/-- TEdge::contains(v). -/
def edgeHasVert (e : MEdge) (v : ℕ) : Bool :=
  e.a = v || e.b = v

/-- Vertex::getEdgeTo(v): the stored edge joining u and v, NULL if
absent. -/
def getEdgeTo (s : TriState) (u v : ℕ) : Option MEdge :=
  s.edges.find? (fun e => edgeConnects e u v)

/-- TEdge::getOtherVertex(v). -/
def edgeOtherVertex (e : MEdge) (v : ℕ) : ℕ :=
  if e.a = v then e.b else e.a

/-- TEdge::getT0() of the edge joining u and v: the first registered
triangle. -/
def getT0 (s : TriState) (u v : ℕ) : Option MTri :=
  (trisWithEdge s u v)[0]?

/-- TEdge::getT1(). -/
def getT1 (s : TriState) (u v : ℕ) : Option MTri :=
  (trisWithEdge s u v)[1]?

/-- TEdge::getOtherTriangle(t) of the edge joining u and v. -/
def getOtherTriangle (s : TriState) (u v : ℕ) (t : MTri) : Option MTri :=
  (trisWithEdge s u v).find? (fun q => q ≠ t)

/-- TEdge::getTriangleContaining(w). -/
def getTriangleContaining (s : TriState) (u v w : ℕ) : Option MTri :=
  (trisWithEdge s u v).find? (fun t => triHasVert t w)

/-- TEdge::getTriangleNotContaining(w). -/
def getTriangleNotContaining (s : TriState) (u v w : ℕ) : Option MTri :=
  (trisWithEdge s u v).find? (fun t => ! triHasVert t w)

/-- The three stored edges of a triangle, recovered by endpoint lookup. -/
def triEdges (s : TriState) (t : MTri) : List MEdge :=
  [getEdgeTo s t.a t.b, getEdgeTo s t.b t.c, getEdgeTo s t.c t.a].filterMap id

/-- Triangle::getOtherEdgeContaining(w, e): the edge of the triangle
containing vertex w other than e. -/
def getOtherEdgeContaining (s : TriState) (t : MTri) (w : ℕ) (e : MEdge) :
    Option MEdge :=
  (triEdges s t).find? (fun q => q ≠ e && edgeHasVert q w)

/-- Triangle::getEdgeNotContaining(w). -/
def getEdgeNotContaining (s : TriState) (t : MTri) (w : ℕ) : Option MEdge :=
  (triEdges s t).find? (fun q => ! edgeHasVert q w)

/-- Triangle::getOtherEdges(e): the two edges of the triangle other than
e. -/
def getOtherEdges (s : TriState) (t : MTri) (e : MEdge) : List MEdge :=
  (triEdges s t).filter (fun q => q ≠ e)

/-- Vertex::getSurroundingEdges() (vertex.cpp lines 259-269): for each
triangle containing the vertex, in registration order, the edge of that
triangle not containing the vertex. -/
def getSurroundingEdges (s : TriState) (v : ℕ) : List MEdge :=
  (s.tris.filter (fun t => triHasVert t v)).filterMap
    (fun t => getEdgeNotContaining s t v)

/-- Triangle::inside(p) (triangle.cpp lines 772-796): the signbit
containment test on the stored corner order — the same computation as
Polygon::insideTriangle. -/
def triInside (s : TriState) (t : MTri) (p : Pt) : Bool :=
  insideTriangle (coordOf s t.a) (coordOf s t.b) (coordOf s t.c) p

/-- delete of a TEdge (destructor documented in tedge.h lines 443-452):
the edge is removed and its incident triangles are destroyed. -/
def deleteEdge (s : TriState) (e : MEdge) : TriState :=
  { s with
    edges := s.edges.filter (fun q => q ≠ e)
    tris := s.tris.filter (fun t => ! triHasEdge t e.a e.b) }

/-- Deleting a collected edgesToRemove list in order. -/
def deleteEdges (s : TriState) (es : List MEdge) : TriState :=
  es.foldl deleteEdge s

/-- new TEdge(u, v) (TRIANGULATION type) followed by
Triangulation::addEdge. -/
def addEdgeT (s : TriState) (u v : ℕ) : TriState :=
  { s with edges := s.edges ++ [⟨u, v, .triangulationK⟩] }

/-- new Triangle(..., x, y, z, intern): the triangle is created and
registered. -/
def addTriT (s : TriState) (x y z : ℕ) (intern : Bool) : TriState :=
  { s with tris := s.tris ++ [⟨x, y, z, intern⟩] }

/-- PolygonType from polygon.h (CIRCULAR is never used by the
translations). -/
inductive MPolyType where
  | starshaped
  | edgevisible
deriving DecidableEq, Repr

/-- An embedded Polygon to retriangulate: its type, the vertex chain in
insertion order (startVertex first), the internal flag, and the kernel
point for star-shaped polygons. -/
structure MPoly where
  ptyp : MPolyType
  chain : List ℕ
  intern : Bool
  kernel : Option Pt
deriving DecidableEq, Repr

/-- One iteration of the while(n > 3) loop of Polygon::triangulateVisible
(polygon.cpp lines 152-195) on the embedded state: clip the ear
(v0, v1, v2) — creating the diagonal (v0, v2) and the triangle — iff v1
is not the start vertex, the ear's area is nonzero and its signbit equals
the reference signbit; else advance the window. -/
def visStepS (start : ℕ) (rd : ℚ) (intern : Bool)
    (p : TriState × List ℕ) : TriState × List ℕ :=
  match p with
  | (s, v0 :: v1 :: v2 :: rest) =>
    let area := signedAreaDouble (coordOf s v0) (coordOf s v1) (coordOf s v2)
    if v1 ≠ start ∧ area ≠ 0 ∧ signbit area = signbit rd then
      (addTriT (addEdgeT s v0 v2) v0 v1 v2 intern,
        rotateRight (v0 :: v2 :: rest))
    else
      (s, v1 :: v2 :: rest ++ [v0])
  | (s, c) => (s, c)

/-- The fuelled clipping loop of triangulateVisible. -/
def visLoopS (start : ℕ) (rd : ℚ) (intern : Bool) :
    ℕ → TriState × List ℕ → TriState × List ℕ
  | 0, p => p
  | fuel + 1, p =>
    if 3 < p.2.length then visLoopS start rd intern fuel (visStepS start rd intern p)
    else p

/-- Polygon::triangulateVisible (polygon.cpp lines 129-211) on the
embedded state: the reference determinant is the signed area of the
vertex before the start vertex with the first two chain vertices; after
the loop the final triangle of the remaining three vertices is created. -/
def triangulateVisibleS (s : TriState) (chain : List ℕ) (intern : Bool)
    (fuel : ℕ) : TriState :=
  let rd :=
    match chain, chain.getLast? with
    | v0 :: v1 :: _, some w =>
      signedAreaDouble (coordOf s w) (coordOf s v0) (coordOf s v1)
    | _, _ => 0
  let start := chain.headD 0
  match visLoopS start rd intern fuel (s, chain) with
  | (s1, [x, y, z]) => addTriT s1 x y z intern
  | (s1, _) => s1

/-- One iteration of the while(n > 3) loop of Polygon::triangulateStar
(polygon.cpp lines 55-103) on the embedded state, with the C4 clip
condition on the chain coordinates. -/
def starStepS (k : Pt) (rd : ℚ) (intern : Bool)
    (p : TriState × List ℕ) : TriState × List ℕ :=
  match p with
  | (s, v0 :: v1 :: v2 :: rest) =>
    if clipCond k rd (coordOf s v0) (coordOf s v1) (coordOf s v2) then
      (addTriT (addEdgeT s v0 v2) v0 v1 v2 intern,
        rotateRight (v0 :: v2 :: rest))
    else
      (s, v1 :: v2 :: rest ++ [v0])
  | (s, c) => (s, c)

/-- The fuelled clipping loop of triangulateStar on the embedded state. -/
def starLoopS (k : Pt) (rd : ℚ) (intern : Bool) :
    ℕ → TriState × List ℕ → TriState × List ℕ
  | 0, p => p
  | fuel + 1, p =>
    if 3 < p.2.length then starLoopS k rd intern fuel (starStepS k rd intern p)
    else p

/-- Polygon::triangulateStar on the embedded state. -/
def triangulateStarS (s : TriState) (k : Pt) (chain : List ℕ)
    (intern : Bool) (fuel : ℕ) : TriState :=
  let rd :=
    match chain with
    | v0 :: v1 :: _ => signedAreaDouble (coordOf s v0) (coordOf s v1) k
    | _ => 0
  match starLoopS k rd intern fuel (s, chain) with
  | (s1, [x, y, z]) => addTriT s1 x y z intern
  | (s1, _) => s1

/-- Polygon::triangulate (polygon.cpp lines 449-462): dispatch on the
polygon type; star-shaped polygons require a kernel. -/
def polyTriangulate (s : TriState) (p : MPoly) (fuel : ℕ) : TriState :=
  match p.ptyp with
  | .starshaped =>
    match p.kernel with
    | none => s
    | some k => triangulateStarS s k p.chain p.intern fuel
  | .edgevisible => triangulateVisibleS s p.chain p.intern fuel

/-- The SP walk of bPSRC3OppositeDirection
(translationRetriangulation.cpp lines 438-448): while the fan edge e is
not secondaryE, record e for removal, append the far vertex of e to the
p0 chain, and advance to the next fan triangle.  Fuelled; a missing
neighbour (never hit on a valid state) or exhausted fuel yields none. -/
def oppDirLoop (s : TriState) (orig : ℕ) (secondaryE : MEdge) :
    ℕ → MTri → MEdge → List ℕ → List MEdge →
    Option (List ℕ × List MEdge)
  | 0, _, _, _, _ => none
  | fuel + 1, t, e, chain, toRemove =>
    if e = secondaryE then some (chain, toRemove)
    else
      match getOtherTriangle s e.a e.b t with
      | none => none
      | some t2 =>
        match getOtherEdgeContaining s t2 orig e with
        | none => none
        | some e2 =>
          oppDirLoop s orig secondaryE fuel t2 e2
            (chain ++ [edgeOtherVertex e orig]) (toRemove ++ [e])

/-- TranslationRetriangulation::bPSRC3OppositeDirection
(translationRetriangulation.cpp lines 393-461): if the edge
(primaryV, secondaryV) exists and has a triangle containing the moving
vertex, nothing happens; otherwise the fan triangle at primaryE whose
apex is on the same side of (primaryV, oldV) as newV is selected, the SP
between primaryV and secondaryV is walked collecting the p0 chain, the
fan edges at the moving vertex are deleted (destroying the fan
triangles), and the edge-visible polygon p0 (chain closed through
secondaryE, the moving vertex and primaryE) is returned with the
internal flag of the start triangle. -/
def bPSRC3OppositeDirection (s : TriState) (orig : ℕ) (oldV newV : Pt)
    (primaryV secondaryV : ℕ) (fuel : ℕ) :
    TriState × Option MPoly :=
  let skip :=
    match getEdgeTo s primaryV secondaryV with
    | none => false
    | some e => (getTriangleContaining s e.a e.b orig).isSome
  if skip then (s, none)
  else
    match getEdgeTo s orig primaryV, getEdgeTo s orig secondaryV with
    | some primaryE, some secondaryE =>
      (match getT0 s orig primaryV with
      | none => (s, none)
      | some t0 =>
        let v := triOtherVertex t0 orig primaryV
        let area0 := signedAreaDouble (coordOf s primaryV) oldV (coordOf s v)
        let area1 := signedAreaDouble (coordOf s primaryV) oldV newV
        let tSel := if signbit area0 ≠ signbit area1 then
            getT1 s orig primaryV
          else some t0
        match tSel with
        | none => (s, none)
        | some t =>
          match getOtherEdgeContaining s t orig primaryE with
          | none => (s, none)
          | some e0 =>
            match oppDirLoop s orig secondaryE fuel t e0 [primaryV] [] with
            | none => (s, none)
            | some (chain, toRemove) =>
              (deleteEdges s toRemove,
                some ⟨.edgevisible, chain ++ [secondaryV, orig], t.internal,
                  none⟩))
    | _, _ => (s, none)

/-- Result of the surrounding-edges scan of checkVisibility: either an
early return (the chord endpoint is adjacent), or fall through with the
visible flag and the first intersected edge. -/
inductive VisScanRes where
  | done (b : Bool)
  | fell (visible : Bool) (intersected : Option MEdge)
deriving DecidableEq, Repr

/-- The first loop of TranslationRetriangulation::checkVisibility
(translationRetriangulation.cpp lines 1439-1479): scan the surrounding
edges of v0; an edge containing v1 answers directly (visible through the
interior iff a triangle of the edge (v0, v1) contains the moving vertex);
a VERTEX intersection with the chord makes v0 invisible; an EDGE
intersection sets the visible flag from whether the intersected edge
contains the moving vertex and stops the scan. -/
def visScan (s : TriState) (orig v0 v1 : ℕ) : List MEdge → VisScanRes
  | [] => .fell true none
  | i :: rest =>
    if edgeHasVert i v1 then
      match getEdgeTo s v0 v1 with
      | none => .done false
      | some e =>
        .done ((trisWithEdge s e.a e.b).any (fun t => triHasVert t orig))
    else
      let it := checkIntersection true (coordOf s v0) (coordOf s v1)
        (coordOf s i.a) (coordOf s i.b)
      if it = .iVertex then .fell false none
      else if it = .iEdge then .fell (edgeHasVert i orig) (some i)
      else visScan s orig v0 v1 rest

/-- The tracing loop of checkVisibility (translationRetriangulation.cpp
lines 1482-1515): follow the chord (v0, v1) through the triangulation;
stop visible when neither far edge of the current triangle intersects the
chord, invisible at a VERTEX intersection or when the crossed edge does
not contain the moving vertex. -/
def visTrace (s : TriState) (orig v0 v1 : ℕ) :
    ℕ → MTri → MEdge → Bool
  | 0, _, _ => true
  | fuel + 1, t, i =>
    match getOtherEdges s t i with
    | [f0, f1] =>
      let it0 := checkIntersection true (coordOf s f0.a) (coordOf s f0.b)
        (coordOf s v0) (coordOf s v1)
      if it0 = .iNone then
        let it1 := checkIntersection true (coordOf s f1.a) (coordOf s f1.b)
          (coordOf s v0) (coordOf s v1)
        if it1 = .iNone then true
        else if it1 = .iVertex then false
        else
          if edgeHasVert f1 orig then
            match getOtherTriangle s f1.a f1.b t with
            | some t2 => visTrace s orig v0 v1 fuel t2 f1
            | none => false
          else false
      else
        if it0 = .iVertex then false
        else
          if edgeHasVert f0 orig then
            match getOtherTriangle s f0.a f0.b t with
            | some t2 => visTrace s orig v0 v1 fuel t2 f0
            | none => false
          else false
    | _ => true

/-- TranslationRetriangulation::checkVisibility (lines 1412-1520): v0 is
visible to v1 through the SP interior.  Immediately true when v0 has been
turned past the line (v1, moving vertex) relative to the reference
vertex; otherwise scan the surrounding edges of v0 and, if an interior
edge was crossed, trace the chord through the triangulation. -/
def checkVisibility (s : TriState) (orig v0 v1 refV : ℕ) (fuel : ℕ) :
    Bool :=
  let areaRef := signedAreaDouble (coordOf s v1) (coordOf s orig)
    (coordOf s refV)
  let area := signedAreaDouble (coordOf s v1) (coordOf s orig)
    (coordOf s v0)
  if signbit areaRef = signbit area then true
  else
    match visScan s orig v0 v1 (getSurroundingEdges s v0) with
    | .done b => b
    | .fell visible intersected =>
      if visible then
        match intersected with
        | none => true
        | some i =>
          match getTriangleNotContaining s i.a i.b v0 with
          | some t => visTrace s orig v0 v1 fuel t i
          | none => true
      else false

/-- The first SP walk of bPSRC3SPOld (translationRetriangulation.cpp
lines 1089-1099): walk the fan at the moving vertex starting from
primaryE while the SP edge still contains primaryV or the chord to the
new position neither ends in the current triangle nor crosses the SP
edge, collecting the p1 chain and the fan edges to remove. -/
def spOldLoop (s : TriState) (orig primaryV : ℕ) (newV : Pt) :
    ℕ → MTri → MEdge → MEdge → ℕ → List ℕ → List MEdge →
    Option (MTri × MEdge × MEdge × ℕ × List ℕ × List MEdge)
  | 0, _, _, _, _, _, _ => none
  | fuel + 1, t, e, sp, v, chain, toRemove =>
    if edgeHasVert sp primaryV ∨
        (¬ triInside s t newV = true ∧
          checkIntersection true (coordOf s sp.a) (coordOf s sp.b)
            (coordOf s primaryV) newV = .iNone) then
      match getOtherTriangle s e.a e.b t with
      | none => none
      | some t2 =>
        match getOtherEdgeContaining s t2 orig e,
            getEdgeNotContaining s t2 orig with
        | some e2, some sp2 =>
          spOldLoop s orig primaryV newV fuel t2 e2 sp2
            (edgeOtherVertex e2 orig) (chain ++ [v]) (toRemove ++ [e])
        | _, _ => none
    else
      some (t, e, sp, v, chain, toRemove)

/-- The second SP walk of bPSRC3SPOld (lines 1148-1160): continue along
the fan until secondaryE, collecting the p2 chain. -/
def spOldP2Loop (s : TriState) (orig : ℕ) (secondaryE : MEdge) :
    ℕ → MTri → MEdge → List ℕ → List MEdge →
    Option (List ℕ × List MEdge)
  | 0, _, _, _, _ => none
  | fuel + 1, t, e, chain, toRemove =>
    if e = secondaryE then some (chain, toRemove)
    else
      match getOtherEdgeContaining s t orig e with
      | none => none
      | some e2 =>
        match getOtherTriangle s e2.a e2.b t with
        | none => none
        | some t2 =>
          spOldP2Loop s orig secondaryE fuel t2 e2
            (chain ++ [edgeOtherVertex e2 orig]) (toRemove ++ [e])

/-- TranslationRetriangulation::bPSRC3SPOld (lines 1061-1213).  Returns
the new state, the polygons p1 and p2, the border edge, and the aborted
flag.  The walk starts at the triangle of primaryE that survived
bPSRC3OppositeDirection; if the chord to the new position ends inside the
final triangle, p1 is closed through a new edge to the moving vertex and
p2 is built along secondaryE; otherwise the border vertex must see
primaryV through the SP interior — if it does not, p1 is discarded and
the translation is aborted (the fan edges collected for removal are NOT
deleted on this path, but the edges already deleted by
bPSRC3OppositeDirection stay deleted). -/
def bPSRC3SPOld (s : TriState) (orig primaryV secondaryV : ℕ)
    (oldV newV : Pt) (fuel : ℕ) :
    TriState × Option MPoly × Option MPoly × Option MEdge × Bool :=
  match getEdgeTo s orig primaryV, getEdgeTo s orig secondaryV with
  | some primaryE, some secondaryE =>
    let tStart :=
      match getT0 s orig primaryV with
      | none => getT1 s orig primaryV
      | some t =>
        if triOtherVertex t orig primaryV = secondaryV then
          getT1 s orig primaryV
        else some t
    (match tStart with
    | none => (s, none, none, none, false)
    | some t0 =>
      let intern := t0.internal
      match getOtherEdgeContaining s t0 orig primaryE,
          getEdgeNotContaining s t0 orig with
      | some e0, some sp0 =>
        (match spOldLoop s orig primaryV newV fuel t0 e0 sp0
            (triOtherVertex t0 orig primaryV) [primaryV] [] with
        | none => (s, none, none, none, false)
        | some (t, e, sp, v, chain, toRemove) =>
          let borderV := triOtherVertex t e.a e.b
          if triInside s t newV then
            let s1 := addEdgeT s borderV orig
            let p1 : MPoly :=
              ⟨.starshaped, chain ++ [orig], intern, some oldV⟩
            let tNext := getOtherTriangle s1 e.a e.b t
            let s2 := deleteEdges s1 toRemove
            if v = secondaryV then
              (addTriT s2 orig borderV secondaryV intern, some p1, none,
                none, false)
            else
              let s3 := addTriT (addEdgeT s2 v orig) orig borderV v intern
              match tNext with
              | none => (s3, some p1, none, none, false)
              | some t2 =>
                match spOldP2Loop s3 orig secondaryE fuel t2 e [orig, v]
                    [] with
                | none => (s3, some p1, none, none, false)
                | some (chain2, toRemove2) =>
                  (deleteEdges s3 toRemove2, some p1,
                    some ⟨.edgevisible, chain2, intern, none⟩, none, false)
          else
            if ¬ checkVisibility s orig borderV primaryV secondaryV fuel
                = true then
              (s, none, none, none, true)
            else
              let s1 := deleteEdges s toRemove
              if (getEdgeTo s1 primaryV borderV).isSome then
                (s1, none, none, some sp, false)
              else
                let s2 := addEdgeT s1 borderV primaryV
                let p1 : MPoly :=
                  if insideTriangle (coordOf s2 borderV) newV
                      (coordOf s2 primaryV) oldV then
                    ⟨.edgevisible, chain, intern, none⟩
                  else
                    ⟨.starshaped, chain, intern, some oldV⟩
                (s2, some p1, none, some sp, false))
      | _, _ => (s, none, none, none, false))
  | _, _ => (s, none, none, none, false)

/-- The scan of bPSRC3TranslationDirection for the first surrounding edge
of secondaryV crossed by secondaryNewE (translationRetriangulation.cpp
lines 1264-1273). -/
def findFirstCrossing (s : TriState) (a0 a1 : Pt) : List MEdge →
    Option MEdge
  | [] => none
  | i :: rest =>
    if checkIntersection false a0 a1 (coordOf s i.a) (coordOf s i.b)
        ≠ .iNone then some i
    else findFirstCrossing s a0 a1 rest

/-- The p2 start walk of bPSRC3TranslationDirection (lines 1285-1297):
follow the fan from the crossed edge away from secondaryV until the
border edge is reached (no next triangle). -/
def bTDp2Loop (s : TriState) (orig : ℕ) :
    ℕ → Option MTri → MEdge → ℕ → List ℕ → List MEdge →
    Option (ℕ × List ℕ × List MEdge)
  | 0, _, _, _, _, _ => none
  | _ + 1, none, _, v2, chain, toRemove => some (v2, chain, toRemove)
  | fuel + 1, some t, e, _, chain, toRemove =>
    match getOtherEdgeContaining s t orig e with
    | none => none
    | some e2 =>
      bTDp2Loop s orig fuel (getOtherTriangle s e2.a e2.b t) e2
        (edgeOtherVertex e2 orig)
        (chain ++ [edgeOtherVertex e2 orig]) (toRemove ++ [e2])

/-- The main walk of bPSRC3TranslationDirection (lines 1325-1358): follow
the chord to the new position from the border edge, splitting the crossed
fan vertices between p2 and p3 by the side of the chord they lie on. -/
def bTDMainLoop (s : TriState) (primaryV : ℕ) (newV : Pt) (areaRef : ℚ) :
    ℕ → MTri → MEdge → ℕ → ℕ → List ℕ → List ℕ → List MEdge →
    Option (MTri × MEdge × ℕ × ℕ × List ℕ × List ℕ × List MEdge)
  | 0, _, _, _, _, _, _, _ => none
  | fuel + 1, t, e, v2, v3, chain2, chain3, toRemove =>
    let v := triOtherVertex t e.a e.b
    match getOtherEdges s t e with
    | [f0, f1] =>
      let pick :=
        if checkIntersection true (coordOf s f0.a) (coordOf s f0.b)
            (coordOf s primaryV) newV ≠ .iNone then some f0
        else if checkIntersection true (coordOf s f1.a) (coordOf s f1.b)
            (coordOf s primaryV) newV ≠ .iNone then some f1
        else none
      match pick with
      | none => some (t, e, v2, v3, chain2, chain3, toRemove)
      | some eNew =>
        let area := signedAreaDouble (coordOf s primaryV) newV
          (coordOf s v)
        match getOtherTriangle s eNew.a eNew.b t with
        | none => none
        | some t2 =>
          if signbit areaRef = signbit area then
            bTDMainLoop s primaryV newV areaRef fuel t2 eNew v v3
              (chain2 ++ [v]) chain3 (toRemove ++ [eNew])
          else
            bTDMainLoop s primaryV newV areaRef fuel t2 eNew v2 v
              chain2 (chain3 ++ [v]) (toRemove ++ [eNew])
    | _ => some (t, e, v2, v3, chain2, chain3, toRemove)

/-- TranslationRetriangulation::bPSRC3TranslationDirection (lines
1233-1400): build the two edge-visible polygons p2 (containing
secondaryV) and p3 (containing primaryV) along the chord to the new
position, delete the crossed edges, insert the closing edges to the
moving vertex and the two end triangles. -/
def bPSRC3TranslationDirection (s : TriState)
    (orig primaryV secondaryV : ℕ) (newV : Pt) (borderE : MEdge)
    (fuel : ℕ) : TriState × Option MPoly × Option MPoly :=
  let tSel :=
    match getT0 s borderE.a borderE.b with
    | none => getT1 s borderE.a borderE.b
    | some t => some t
  match tSel with
  | none => (s, none, none)
  | some t0 =>
    let intern := t0.internal
    let start2 :=
      if ¬ edgeHasVert borderE secondaryV then
        match findFirstCrossing s newV (coordOf s secondaryV)
            (getSurroundingEdges s secondaryV) with
        | none => some (secondaryV, [secondaryV], ([] : List MEdge))
        | some e =>
          let v2a := edgeOtherVertex e orig
          bTDp2Loop s orig fuel
            (getTriangleNotContaining s e.a e.b secondaryV) e v2a
            [secondaryV, v2a] [e]
      else some (secondaryV, [secondaryV], [])
    match start2 with
    | none => (s, none, none)
    | some (v2, chain2, toRemove0) =>
      let v3 := edgeOtherVertex borderE v2
      let areaRef := signedAreaDouble (coordOf s primaryV) newV
        (coordOf s v2)
      match bTDMainLoop s primaryV newV areaRef fuel t0 borderE v2 v3
          chain2 [primaryV, v3] (toRemove0 ++ [borderE]) with
      | none => (s, none, none)
      | some (t, e, v2f, v3f, chain2f, chain3f, toRemove) =>
        let v := triOtherVertex t e.a e.b
        let containsSecondaryV := triHasVert t secondaryV
        let s1 := deleteEdges s toRemove
        let s2 := addEdgeT (addEdgeT s1 orig v) orig v3f
        if containsSecondaryV then
          (addTriT (addTriT s2 orig v secondaryV intern) v3f orig v intern,
            none, some ⟨.edgevisible, chain3f ++ [orig], intern, none⟩)
        else
          (addTriT (addTriT (addEdgeT s2 orig v2f) v2f orig v intern)
              v3f orig v intern,
            some ⟨.edgevisible, chain2f ++ [orig], intern, none⟩,
            some ⟨.edgevisible, chain3f ++ [orig], intern, none⟩)

/-- The outcome of buildPolygonsSideRemainCase3: the mutated state, the
four polygons to retriangulate, and the aborted flag. -/
structure Case3Res where
  st : TriState
  p0 : Option MPoly
  p1 : Option MPoly
  p2 : Option MPoly
  p3 : Option MPoly
  aborted : Bool
deriving DecidableEq, Repr

/-- TranslationRetriangulation::buildPolygonsSideRemainCase3 (lines
89-120): the primary side is prevV when the new edge from prevV crosses
the old edge to nextV, else nextV; then the opposite-direction polygon is
built (deleting its fan), the SP walk towards the new position runs (the
only function that can abort), and, when a border edge was produced, the
two polygons in translation direction are built. -/
def buildPolygonsSideRemainCase3 (s : TriState) (orig prevV nextV : ℕ)
    (oldV newV : Pt) (fuel : ℕ) : Case3Res :=
  let i := checkIntersection true (coordOf s prevV) newV
    (coordOf s orig) (coordOf s nextV)
  let primaryV := if i ≠ .iNone then prevV else nextV
  let secondaryV := if i ≠ .iNone then nextV else prevV
  let r0 := bPSRC3OppositeDirection s orig oldV newV primaryV secondaryV
    fuel
  let r1 := bPSRC3SPOld r0.1 orig primaryV secondaryV oldV newV fuel
  match r1.2.2.2.1 with
  | some borderE =>
    let r2 := bPSRC3TranslationDirection r1.1 orig primaryV secondaryV
      newV borderE fuel
    ⟨r2.1, r0.2, r1.2.1, r2.2.1, r2.2.2, r1.2.2.2.2⟩
  | none => ⟨r1.1, r0.2, r1.2.1, r1.2.2.1, none, r1.2.2.2.2⟩

/-- The sideChange flag computed by the TranslationRetriangulation
constructor (lines 1540-1553): the signbits of the signed areas of
(prevV, nextV, oldV) and (prevV, nextV, newV) differ. -/
def sideChangeOf (s : TriState) (orig prevV nextV : ℕ) (dx dy : ℚ) :
    Bool :=
  let oldV := coordOf s orig
  let newV : Pt := ⟨oldV.x + dx, oldV.y + dy⟩
  signbit (signedAreaDouble (coordOf s prevV) (coordOf s nextV) oldV) ≠
    signbit (signedAreaDouble (coordOf s prevV) (coordOf s nextV) newV)

/-- TranslationRetriangulation::execute (lines 1601-1652) specialised to
the side-remain case-3 dispatch (sideChange false, newV not inside the
old triangle and oldV not inside the new one — the dispatch conditions
are stated and proved separately): build the polygons, move the vertex to
its target position only when not aborted, retriangulate every built
polygon — including when the translation was aborted — and return UNDONE
exactly when aborted, else FULL. -/
def executeSideRemainCase3 (s : TriState) (orig prevV nextV : ℕ)
    (dx dy : ℚ) (fuel : ℕ) : ExecOutcome × TriState :=
  let oldV := coordOf s orig
  let newV : Pt := ⟨oldV.x + dx, oldV.y + dy⟩
  let r := buildPolygonsSideRemainCase3 s orig prevV nextV oldV newV fuel
  let s1 := if r.aborted then r.st else setPosition r.st orig newV
  let s2 := match r.p0 with
    | some p => polyTriangulate s1 p fuel
    | none => s1
  let s3 := match r.p1 with
    | some p => polyTriangulate s2 p fuel
    | none => s2
  let s4 := match r.p2 with
    | some p => polyTriangulate s3 p fuel
    | none => s3
  let s5 := match r.p3 with
    | some p => polyTriangulate s4 p fuel
    | none => s4
  (if r.aborted then .undone else .full, s5)

/-- The concrete triangulation fragment for the C1 counterexample.
Vertex 0 is the moving vertex at (0, 0) with polygon neighbours 1
(prevV, at (-20, 0)) and 2 (nextV, at (10, 5)).  Its surrounding polygon
is the fan 1, 3, 2, 5, 4 (vertex 3 at (0, 15) above, vertices 4 at
(-5, -5) and 5 at (5, -10) below), and one further triangle (4, 5, 6)
with vertex 6 at (-5, -20) lies below the fan. -/
def ceState : TriState :=
  { verts := [(0, ⟨0, 0⟩), (1, ⟨-20, 0⟩), (2, ⟨10, 5⟩), (3, ⟨0, 15⟩),
      (4, ⟨-5, -5⟩), (5, ⟨5, -10⟩), (6, ⟨-5, -20⟩)]
    ring := [1, 0, 2]
    edges := [⟨0, 1, .polygonK⟩, ⟨0, 2, .polygonK⟩, ⟨0, 3, .triangulationK⟩,
      ⟨1, 3, .triangulationK⟩, ⟨3, 2, .triangulationK⟩,
      ⟨0, 4, .triangulationK⟩, ⟨1, 4, .triangulationK⟩,
      ⟨4, 5, .triangulationK⟩, ⟨0, 5, .triangulationK⟩,
      ⟨5, 2, .triangulationK⟩, ⟨4, 6, .triangulationK⟩,
      ⟨5, 6, .triangulationK⟩]
    tris := [⟨1, 0, 3, true⟩, ⟨3, 0, 2, true⟩, ⟨1, 0, 4, false⟩,
      ⟨4, 0, 5, false⟩, ⟨5, 0, 2, false⟩, ⟨4, 5, 6, false⟩] }

/-- The state after bPSRC3OppositeDirection in the counterexample run:
the fan edge (0, 3) has been deleted together with its two triangles. -/
def ceS1 : TriState :=
  { verts := ceState.verts
    ring := [1, 0, 2]
    edges := [⟨0, 1, .polygonK⟩, ⟨0, 2, .polygonK⟩,
      ⟨1, 3, .triangulationK⟩, ⟨3, 2, .triangulationK⟩,
      ⟨0, 4, .triangulationK⟩, ⟨1, 4, .triangulationK⟩,
      ⟨4, 5, .triangulationK⟩, ⟨0, 5, .triangulationK⟩,
      ⟨5, 2, .triangulationK⟩, ⟨4, 6, .triangulationK⟩,
      ⟨5, 6, .triangulationK⟩]
    tris := [⟨1, 0, 4, false⟩, ⟨4, 0, 5, false⟩, ⟨5, 0, 2, false⟩,
      ⟨4, 5, 6, false⟩] }

/-- The final state of the counterexample run: vertex positions are
unchanged, but the fan edge (0, 3) has been replaced by the diagonal
(1, 2) and the two fan triangles by the two ear triangles of the p0
retriangulation. -/
def ceFinal : TriState :=
  { verts := ceState.verts
    ring := [1, 0, 2]
    edges := [⟨0, 1, .polygonK⟩, ⟨0, 2, .polygonK⟩,
      ⟨1, 3, .triangulationK⟩, ⟨3, 2, .triangulationK⟩,
      ⟨0, 4, .triangulationK⟩, ⟨1, 4, .triangulationK⟩,
      ⟨4, 5, .triangulationK⟩, ⟨0, 5, .triangulationK⟩,
      ⟨5, 2, .triangulationK⟩, ⟨4, 6, .triangulationK⟩,
      ⟨5, 6, .triangulationK⟩, ⟨1, 2, .triangulationK⟩]
    tris := [⟨1, 0, 4, false⟩, ⟨4, 0, 5, false⟩, ⟨5, 0, 2, false⟩,
      ⟨4, 5, 6, false⟩, ⟨1, 3, 2, true⟩, ⟨0, 1, 2, true⟩] }

/-- In exact arithmetic the operand ordering of `signedAreaDouble` does not
change the computed value: it always equals the plain determinant
`tDet a b c`. (In the program the reordering only serves to make the
floating-point rounding independent of the vertex order.) -/
theorem signedAreaDouble_eq_tDet (a b c : Pt) :
    signedAreaDouble a b c = tDet a b c := by
  unfold signedAreaDouble tDet
  split <;> [skip; split] <;> split <;> ring

/-- Claim C9: for a ring with `n ≥ 1` vertices, `TPolygon::getVertex(i)`
evaluates `vertices[i % n]`; for `i ≥ 0` that index is in bounds and equals
`i mod n` (the mathematical remainder), but for `-n < i < 0` the truncating
`%` returns the negative `i` itself, which is out of bounds and differs from
the documented wrap-around index `n + i`; memory safety therefore needs the
precondition `i ≥ 0`. -/
theorem getVertex_index_spec (n : ℤ) (hn : 1 ≤ n) :
    (∀ i : ℤ, 0 ≤ i →
      0 ≤ getVertexIndex i n ∧ getVertexIndex i n < n ∧
        getVertexIndex i n = i % n) ∧
    (∀ i : ℤ, -n < i → i < 0 →
      getVertexIndex i n = i ∧ getVertexIndex i n < 0 ∧
        getVertexIndex i n ≠ n + i) := by
  constructor
  · intro i hi
    have he : getVertexIndex i n = i % n := by
      unfold getVertexIndex
      exact Int.tmod_eq_emod hi (by omega)
    refine ⟨?_, ?_, he⟩
    · rw [he]; exact Int.emod_nonneg i (by omega)
    · rw [he]; exact Int.emod_lt_of_pos i (by omega)
  · intro i hlow hneg
    have hself : Int.tmod i n = i := by
      have h0 : (-i).tdiv n = 0 := Int.tdiv_eq_zero_of_lt (by omega) (by omega)
      have h1 : i.tdiv n = -((-i).tdiv n) := by rw [← Int.neg_tdiv, neg_neg]
      rw [Int.tmod_def, h1, h0]
      ring
    unfold getVertexIndex
    refine ⟨hself, by omega, by omega⟩

/-- Witness for C9 at `n = 3`: `getVertex` maps `i = 5` to index `2` and
`i = -1` to the out-of-bounds index `-1` (not to `n + i = 2`). -/
theorem getVertex_index_spec_witness :
    (1 : ℤ) ≤ 3 ∧ getVertexIndex 5 3 = 2 ∧
      getVertexIndex (-1) 3 = -1 ∧ getVertexIndex (-1) 3 ≠ 3 + (-1) := by
  have h := getVertex_index_spec 3 (by decide)
  refine ⟨by decide, ?_, ?_, ?_⟩
  · have h5 := (h.1 5 (by decide)).2.2
    rw [h5]; decide
  · exact (h.2 (-1) (by decide) (by decide)).1
  · exact (h.2 (-1) (by decide) (by decide)).2.2

/-- Counterexample to claim C8 as stated: with 3 holes, outer target size
100 and a current outer ring of 20 vertices, the first growth phase of
`strategyWithHoles1` computes `5 * 3 - 20 = -5` insertions, performs none,
and leaves the outer ring at 20 vertices — strictly below
`min (10 * nrHoles) outerSize = 30`, so the outer ring is *not* grown to at
least `10 × nrHoles` vertices. -/
theorem holes1_outer_not_10x :
    holes1OuterFinal 100 3 20 = 20 ∧
      holes1OuterFinal 100 3 20 < min (10 * 3) 100 := by
  constructor <;> decide

/-- For an `int`-range value the unsigned round trip of
`int -> unsigned int -> int` is the identity. -/
theorem toInt32_u32_of_bounds (x : ℤ) (h1 : -(2 ^ 31) ≤ x) (h2 : x < 2 ^ 31) :
    toInt32 (u32 x) = x := by
  unfold toInt32 u32
  split
  · omega
  · omega

/-- Claim C8 as amended: in `strategyWithHoles1`'s first growth phase the
outer ring is grown toward `5 × nrHoles` vertices — not `10 × nrHoles` —
whenever `outerSize ≥ 10 * k - actualN`, else toward the outer target size,
and only when the computed insertion count is positive; afterwards each hole
is grown from its initial 3 vertices to `min 20 target`. -/
theorem holes1_growth_spec (outerSize k : ℕ) (actualN : ℤ) (target : ℕ)
    (hN0 : 0 ≤ actualN) (hNk : actualN ≤ 10 * (k : ℤ))
    (hk : k ≤ 1000) (ho : outerSize < 2 ^ 31)
    (ht3 : 3 ≤ target) (ht : target < 2 ^ 31) :
    (holes1OuterFinal outerSize k actualN =
      if 10 * (k : ℤ) - actualN ≤ (outerSize : ℤ) then
        max actualN (5 * (k : ℤ)) else max actualN (outerSize : ℤ)) ∧
    holes1HoleFinal target = min 20 (target : ℤ) := by
  constructor
  · unfold holes1OuterFinal holes1OuterInsertions
    have hcond : (u32 (10 * (k : ℤ) - actualN) ≤ outerSize % 2 ^ 32) ↔
        (10 * (k : ℤ) - actualN ≤ (outerSize : ℤ)) := by
      unfold u32; omega
    by_cases hc : 10 * (k : ℤ) - actualN ≤ (outerSize : ℤ)
    · rw [if_pos (hcond.mpr hc)]
      rw [toInt32_u32_of_bounds _ (by omega) (by omega)]
      rw [if_pos hc]
      by_cases hpos : 0 < 5 * (k : ℤ) - actualN
      · rw [if_pos hpos]; omega
      · rw [if_neg hpos]; omega
    · rw [if_neg (fun h => hc (hcond.mp h))]
      rw [toInt32_u32_of_bounds _ (by omega) (by omega)]
      rw [if_neg hc]
      by_cases hpos : 0 < (outerSize : ℤ) - actualN
      · rw [if_pos hpos]; omega
      · rw [if_neg hpos]; omega
  · unfold holes1HoleFinal holes1HoleInsertions
    have hts : target % 2 ^ 32 = target := by apply Nat.mod_eq_of_lt; omega
    rw [hts]
    by_cases h20 : 20 ≤ target
    · rw [if_pos h20, if_pos (by decide)]; omega
    · rw [if_neg h20]
      rw [toInt32_u32_of_bounds _ (by omega) (by omega)]
      by_cases hpos : 0 < (target : ℤ) - 3
      · rw [if_pos hpos]; omega
      · rw [if_neg hpos]; omega

/-- Witness for the amended C8 at outer target 100, 3 holes, current outer
size 20 and hole target 10: the outer ring stays at `max 20 15 = 20` and the
hole reaches `min 20 10 = 10`. -/
theorem holes1_growth_spec_witness :
    holes1OuterFinal 100 3 20 = max 20 15 ∧ holes1HoleFinal 10 = min 20 10 := by
  have h := holes1_growth_spec 100 3 20 10 (by decide) (by decide) (by decide)
    (by decide) (by decide) (by decide)
  constructor
  · have h1 := h.1
    rw [if_pos (by decide)] at h1
    simpa using h1
  · simpa using h.2

/-- Inserting along the lighter-subtree path always adds exactly one node. -/
theorem stInsertNew_nodeCount {α : Type} (x : α) (t : STree α) :
    stNodeCount (stInsertNew x t) = stNodeCount t + 1 := by
  induction t with
  | leaf => rfl
  | node e l r ihl ihr =>
    unfold stInsertNew
    by_cases h : stNodeCount l ≤ stNodeCount r
    · rw [if_pos h]; unfold stNodeCount; rw [ihl]; ring
    · rw [if_neg h]; unfold stNodeCount; rw [ihr]; ring

/-- Counterexample to claim C6 as stated: insert the same edge (id 7)
twice through `Triangulation::addEdge` into a fresh weighted ring tree.
The second call does *not* leave the tree unchanged: the node count grows
from 1 to 2, so add-edge is not idempotent for an edge that already has an
entry. -/
theorem addEdge_not_idempotent :
    triangulationAddEdge true EdgeKind.polygonK 7
        (triangulationAddEdge true EdgeKind.polygonK 7 (⟨.leaf, []⟩ : SelTree ℕ)) ≠
      triangulationAddEdge true EdgeKind.polygonK 7 (⟨.leaf, []⟩ : SelTree ℕ) ∧
    stNodeCount (triangulationAddEdge true EdgeKind.polygonK 7
        (triangulationAddEdge true EdgeKind.polygonK 7 (⟨.leaf, []⟩ : SelTree ℕ))).root = 2 ∧
    stNodeCount (triangulationAddEdge true EdgeKind.polygonK 7
        (⟨.leaf, []⟩ : SelTree ℕ)).root = 1 := by
  refine ⟨?_, by decide, by decide⟩
  intro h
  have := congrArg (fun s => stNodeCount (SelTree.root s)) h
  simp only at this
  revert this
  decide

/-- Claim C6 as amended: `Triangulation::addEdge` on a POLYGON edge with
weighted selection enabled inserts into the ring's tree *unconditionally* —
whether or not the edge already has a tree entry.  With no empty node queued
the node count always grows by one, so the operation is not idempotent. -/
theorem addEdge_always_inserts {α : Type} (x : α) (s : SelTree α)
    (h : s.empties = []) :
    stNodeCount (triangulationAddEdge true EdgeKind.polygonK x s).root =
      stNodeCount s.root + 1 := by
  unfold triangulationAddEdge stInsert
  rw [if_pos ⟨rfl, rfl⟩]
  rw [h]
  exact stInsertNew_nodeCount x s.root

/-- Witness for the amended C6: adding edge 5 to a one-node tree that
already holds edge 5 grows the node count from 1 to 2. -/
theorem addEdge_always_inserts_witness :
    (⟨.node (some 5) .leaf .leaf, []⟩ : SelTree ℕ).empties = [] ∧
      stNodeCount (triangulationAddEdge true EdgeKind.polygonK 5
        (⟨.node (some 5) .leaf .leaf, []⟩ : SelTree ℕ)).root =
        stNodeCount (⟨.node (some 5) .leaf .leaf, []⟩ : SelTree ℕ).root + 1 :=
  ⟨rfl, addEdge_always_inserts 5 _ rfl⟩

/-- With positive occupied weights the total subtree weight is nonnegative. -/
theorem stTotalWeight_nonneg {α : Type} (w : α → ℚ) (t : STree α)
    (h : allPosWeights w t = true) : 0 ≤ stTotalWeight w t := by
  induction t with
  | leaf => simp [stTotalWeight]
  | node e l r ihl ihr =>
    unfold stTotalWeight
    match e, h with
    | none, h =>
      simp only [allPosWeights, Bool.and_eq_true] at h
      have := ihl h.1
      have := ihr h.2
      simp only [elemWeight]
      linarith
    | some a, h =>
      simp only [allPosWeights, Bool.and_eq_true, decide_eq_true_eq] at h
      have := ihl h.1.2
      have := ihr h.2
      have := h.1.1
      simp only [elemWeight]
      linarith

/-- With positive occupied weights, a subtree of total weight zero holds
nothing: every weight of an item counted in it is zero. -/
theorem stWeightIn_eq_zero_of_total_zero {α : Type} [DecidableEq α]
    (w : α → ℚ) (i : α) (t : STree α)
    (hpos : allPosWeights w t = true) (h0 : stTotalWeight w t = 0) :
    stWeightIn w i t = 0 := by
  induction t with
  | leaf => rfl
  | node e l r ihl ihr =>
    unfold stTotalWeight at h0
    match e, hpos with
    | none, hpos =>
      simp only [allPosWeights, Bool.and_eq_true] at hpos
      have hl := stTotalWeight_nonneg w l hpos.1
      have hr := stTotalWeight_nonneg w r hpos.2
      simp only [elemWeight] at h0
      unfold stWeightIn
      rw [ihl hpos.1 (by linarith), ihr hpos.2 (by linarith)]
      simp
    | some a, hpos =>
      simp only [allPosWeights, Bool.and_eq_true, decide_eq_true_eq] at hpos
      have hl := stTotalWeight_nonneg w l hpos.1.2
      have hr := stTotalWeight_nonneg w r hpos.2
      have ha := hpos.1.1
      simp only [elemWeight] at h0
      linarith

/-- The reach probability times the total weight is the weight of `i` in
the tree. -/
theorem stProbReach_mul_total {α : Type} [DecidableEq α] (w : α → ℚ) (i : α)
    (t : STree α) (hpos : allPosWeights w t = true) :
    stProbReach w i t * stTotalWeight w t = stWeightIn w i t := by
  induction t with
  | leaf => simp [stProbReach, stWeightIn, stTotalWeight]
  | node e l r ihl ihr =>
    have hposl : allPosWeights w l = true := by
      match e, hpos with
      | none, hpos =>
        simp only [allPosWeights, Bool.and_eq_true] at hpos; exact hpos.1
      | some a, hpos =>
        simp only [allPosWeights, Bool.and_eq_true] at hpos; exact hpos.1.2
    have hposr : allPosWeights w r = true := by
      match e, hpos with
      | none, hpos =>
        simp only [allPosWeights, Bool.and_eq_true] at hpos; exact hpos.2
      | some a, hpos =>
        simp only [allPosWeights, Bool.and_eq_true] at hpos; exact hpos.2
    by_cases htw : stTotalWeight w (.node e l r) = 0
    · rw [htw, mul_zero]
      exact (stWeightIn_eq_zero_of_total_zero w i _ hpos htw).symm
    · have hIl := ihl hposl
      have hIr := ihr hposr
      show ((stTotalWeight w l / stTotalWeight w (.node e l r)) * stProbReach w i l
          + (stTotalWeight w r / stTotalWeight w (.node e l r)) * stProbReach w i r
          + (if e = some i then
              elemWeight w e / stTotalWeight w (.node e l r) else 0)) *
            stTotalWeight w (.node e l r) =
        (if e = some i then w i else 0) + stWeightIn w i l + stWeightIn w i r
      by_cases he : e = some i
      · rw [if_pos he, if_pos he]
        subst he
        simp only [elemWeight]
        field_simp
        linear_combination hIl + hIr
      · rw [if_neg he, if_neg he]
        field_simp
        linear_combination hIl + hIr

/-- The weight of `i` in the tree is its weight times its number of
occurrences. -/
theorem stWeightIn_eq_occCount {α : Type} [DecidableEq α] (w : α → ℚ)
    (i : α) (t : STree α) :
    stWeightIn w i t = (stOccCount i t : ℚ) * w i := by
  induction t with
  | leaf => simp [stWeightIn, stOccCount]
  | node e l r ihl ihr =>
    unfold stWeightIn stOccCount
    rw [ihl, ihr]
    by_cases he : e = some i
    · rw [if_pos he, if_pos he]
      push_cast
      ring
    · rw [if_neg he, if_neg he]
      push_cast
      ring

/-- Claim C5: for a weighted `SelectionTree` whose occupied nodes hold
items of positive weight, `getRandomObject` selects item `i` (occupying
exactly one node) with probability `w i / totalWeight`:
(1) at the root the uniform draw `u ∈ [0, totalWeight)` is partitioned —
`getRandomChild` descends left exactly on `[0, leftWeight)`, right exactly
on `[leftWeight, leftWeight + rightWeight)`, and selects the node's own item
exactly on `[leftWeight + rightWeight, totalWeight)` (this holds at every
node, instantiating `t` with the subtree); and
(2) the probability of the resulting descent reaching `i` is exactly
`w i / totalWeight`. -/
theorem getRandomObject_uniform {α : Type} [DecidableEq α] (w : α → ℚ)
    (t : STree α) (i : α) (e : Option α) (l r : STree α)
    (hpos : allPosWeights w t = true) (hocc : stOccCount i t = 1)
    (hW : 0 < stTotalWeight w t) (hshape : t = .node e l r) :
    (∀ u : ℚ, 0 ≤ u → u < stTotalWeight w t →
      ((getRandomChildDir w t u = .left ↔ u < stTotalWeight w l) ∧
       (getRandomChildDir w t u = .right ↔
         stTotalWeight w l ≤ u ∧ u < stTotalWeight w l + stTotalWeight w r) ∧
       (getRandomChildDir w t u = .here ↔
         stTotalWeight w l + stTotalWeight w r ≤ u))) ∧
    stProbReach w i t = w i / stTotalWeight w t := by
  subst hshape
  have hposl : allPosWeights w l = true := by
    match e, hpos with
    | none, hpos =>
      simp only [allPosWeights, Bool.and_eq_true] at hpos; exact hpos.1
    | some a, hpos =>
      simp only [allPosWeights, Bool.and_eq_true] at hpos; exact hpos.1.2
  have hposr : allPosWeights w r = true := by
    match e, hpos with
    | none, hpos =>
      simp only [allPosWeights, Bool.and_eq_true] at hpos; exact hpos.2
    | some a, hpos =>
      simp only [allPosWeights, Bool.and_eq_true] at hpos; exact hpos.2
  have hzero : ∀ s : STree α, stNodeCount s = 0 → stTotalWeight w s = 0 := by
    intro s hs
    cases s with
    | leaf => rfl
    | node e l r => simp [stNodeCount] at hs
  constructor
  · intro u hu0 huW
    simp only [getRandomChildDir]
    refine ⟨?_, ?_, ?_⟩
    · constructor
      · intro h
        by_cases h1 : stNodeCount l ≠ 0 ∧ u < stTotalWeight w l
        · exact h1.2
        · rw [if_neg h1] at h
          by_cases h2 : stNodeCount r ≠ 0 ∧
              u < stTotalWeight w l + stTotalWeight w r
          · rw [if_pos h2] at h; exact absurd h (by simp)
          · rw [if_neg h2] at h; exact absurd h (by simp)
      · intro h
        have hl : stNodeCount l ≠ 0 := by
          intro hc
          rw [hzero l hc] at h
          exact absurd h (by linarith)
        rw [if_pos ⟨hl, h⟩]
    · constructor
      · intro h
        by_cases h1 : stNodeCount l ≠ 0 ∧ u < stTotalWeight w l
        · rw [if_pos h1] at h; exact absurd h (by simp)
        · rw [if_neg h1] at h
          by_cases h2 : stNodeCount r ≠ 0 ∧
              u < stTotalWeight w l + stTotalWeight w r
          · refine ⟨?_, h2.2⟩
            by_cases hl0 : stNodeCount l = 0
            · rw [hzero l hl0]; exact hu0
            · exact le_of_not_lt (fun hc => h1 ⟨hl0, hc⟩)
          · rw [if_neg h2] at h; exact absurd h (by simp)
      · intro ⟨hge, hlt⟩
        have hnl : ¬(stNodeCount l ≠ 0 ∧ u < stTotalWeight w l) := by
          rintro ⟨-, hc⟩; linarith
        rw [if_neg hnl]
        have hr : stNodeCount r ≠ 0 := by
          intro hc
          rw [hzero r hc] at hlt
          linarith
        rw [if_pos ⟨hr, hlt⟩]
    · constructor
      · intro h
        by_cases h1 : stNodeCount l ≠ 0 ∧ u < stTotalWeight w l
        · rw [if_pos h1] at h; exact absurd h (by simp)
        · rw [if_neg h1] at h
          by_cases h2 : stNodeCount r ≠ 0 ∧
              u < stTotalWeight w l + stTotalWeight w r
          · rw [if_pos h2] at h; exact absurd h (by simp)
          · have hul : stTotalWeight w l ≤ u := by
              by_cases hl0 : stNodeCount l = 0
              · rw [hzero l hl0]; exact hu0
              · exact le_of_not_lt (fun hc => h1 ⟨hl0, hc⟩)
            by_cases hr0 : stNodeCount r = 0
            · rw [hzero r hr0]; linarith
            · have := le_of_not_lt (fun hc => h2 ⟨hr0, hc⟩)
              linarith
      · intro h
        have hnl : ¬(stNodeCount l ≠ 0 ∧ u < stTotalWeight w l) := by
          rintro ⟨-, hc⟩
          have := stTotalWeight_nonneg w r hposr
          linarith
        have hnr : ¬(stNodeCount r ≠ 0 ∧
            u < stTotalWeight w l + stTotalWeight w r) := by
          rintro ⟨-, hc⟩; linarith
        rw [if_neg hnl, if_neg hnr]
  · have hmul := stProbReach_mul_total w i (.node e l r) hpos
    have hwin : stWeightIn w i (.node e l r) = w i := by
      rw [stWeightIn_eq_occCount, hocc]
      push_cast
      ring
    rw [hwin] at hmul
    field_simp at hmul ⊢
    linarith [hmul]

/-- Witness for C5: the two-node tree with items `1` (weight 1, at the
root) and `2` (weight 2, in the left child), with the identity weight
function: item `2` is reached with probability `2 / 3`. -/
theorem getRandomObject_uniform_witness :
    allPosWeights (fun a : ℕ => (a : ℚ))
        (.node (some 1) (.node (some 2) .leaf .leaf) .leaf) = true ∧
    stOccCount 2 (.node (some 1) (.node (some 2) .leaf .leaf) .leaf) = 1 ∧
    (0 : ℚ) < stTotalWeight (fun a : ℕ => (a : ℚ))
        (.node (some 1) (.node (some 2) .leaf .leaf) .leaf) ∧
    stProbReach (fun a : ℕ => (a : ℚ)) 2
        (.node (some 1) (.node (some 2) .leaf .leaf) .leaf) =
      (2 : ℚ) / stTotalWeight (fun a : ℕ => (a : ℚ))
        (.node (some 1) (.node (some 2) .leaf .leaf) .leaf) :=
  ⟨by decide, by decide, by norm_num [stTotalWeight, elemWeight],
    (getRandomObject_uniform (fun a : ℕ => (a : ℚ))
      (.node (some 1) (.node (some 2) .leaf .leaf) .leaf) 2
      (some 1) (.node (some 2) .leaf .leaf) .leaf
      (by decide) (by decide)
      (by norm_num [stTotalWeight, elemWeight]) rfl).2⟩

/-- Loop characterization of `translateGo`, proved once for every start
count. -/
theorem translateGo_spec (attempts : ℕ → TransAttempt) :
    ∀ (fuel count : ℕ),
      (∀ i : ℕ, i < fuel → attemptPasses (attempts (count + i)) →
        (∀ j : ℕ, j < i → ¬attemptPasses (attempts (count + j))) →
        translateGo attempts fuel count = (count + i + 1, some (count + i))) ∧
      ((∀ j : ℕ, j < fuel → ¬attemptPasses (attempts (count + j))) →
        translateGo attempts fuel count = (count + fuel, none)) := by
  intro fuel
  induction fuel with
  | zero =>
    intro count
    exact ⟨fun i hi => absurd hi (by omega), fun _ => rfl⟩
  | succ n ih =>
    intro count
    constructor
    · intro i hi hpass hbefore
      cases i with
      | zero =>
        unfold translateGo
        rw [if_pos (by simpa using hpass)]
        simp
      | succ i =>
        unfold translateGo
        rw [if_neg (by simpa using hbefore 0 (by omega))]
        have hpass2 : attemptPasses (attempts (count + 1 + i)) := by
          have h : count + 1 + i = count + (i + 1) := by omega
          rw [h]; exact hpass
        have hbefore2 : ∀ j : ℕ, j < i →
            ¬attemptPasses (attempts (count + 1 + j)) := by
          intro j hj
          have h : count + 1 + j = count + (j + 1) := by omega
          rw [h]; exact hbefore (j + 1) (by omega)
        have := (ih (count + 1)).1 i (by omega) hpass2 hbefore2
        rw [this]
        simp only [Prod.mk.injEq, Option.some.injEq]
        omega
    · intro hnone
      unfold translateGo
      rw [if_neg (by simpa using hnone 0 (by omega))]
      have hnone2 : ∀ j : ℕ, j < n →
          ¬attemptPasses (attempts (count + 1 + j)) := by
        intro j hj
        have h : count + 1 + j = count + (j + 1) := by omega
        rw [h]; exact hnone (j + 1) (by omega)
      have := (ih (count + 1)).2 hnone2
      rw [this]
      simp only [Prod.mk.injEq, and_true]
      omega

/-- Counterexample to claim C7 as stated: the first attempt passes the
overroll and simplicity checks but its translation ends `UNDONE`, while the
second attempt would end `FULL`.  The loop nevertheless stops after the
first attempt: it does *not* continue until an attempt completes with
outcome FULL or PARTIAL. -/
theorem translate_stops_on_undone :
    insertionTranslate
        (fun n => if n = 0 then ⟨false, true, ExecOutcome.undone⟩
          else ⟨false, true, ExecOutcome.full⟩) 2 = (1, some 0) ∧
      ((fun n => if n = 0 then (⟨false, true, ExecOutcome.undone⟩ : TransAttempt)
          else ⟨false, true, ExecOutcome.full⟩) 0).outcome ≠ ExecOutcome.full ∧
      ((fun n => if n = 0 then (⟨false, true, ExecOutcome.undone⟩ : TransAttempt)
          else ⟨false, true, ExecOutcome.full⟩) 0).outcome ≠ ExecOutcome.partway ∧
      ((fun n => if n = 0 then (⟨false, true, ExecOutcome.undone⟩ : TransAttempt)
          else ⟨false, true, ExecOutcome.full⟩) 1).outcome = ExecOutcome.full := by
  refine ⟨?_, by decide, by decide, by decide⟩
  rfl

/-- Claim C7 as amended: `Insertion::translate` makes at most
`insertionTries` attempts and stops at the *first* attempt that passes the
overroll and simplicity checks, executing that translation whatever outcome
`execute()` then returns (the loop never reads the outcome); if no attempt
passes the checks within the limit it gives up silently after exactly
`insertionTries` attempts with no translation executed. -/
theorem insertion_translate_loop_spec (attempts : ℕ → TransAttempt)
    (tries : ℕ) :
    (∀ i : ℕ, i < tries → attemptPasses (attempts i) →
      (∀ j : ℕ, j < i → ¬attemptPasses (attempts j)) →
      insertionTranslate attempts tries = (i + 1, some i)) ∧
    ((∀ j : ℕ, j < tries → ¬attemptPasses (attempts j)) →
      insertionTranslate attempts tries = (tries, none)) := by
  have h := translateGo_spec attempts tries 0
  constructor
  · intro i hi hp hb
    have := h.1 i hi (by simpa using hp) (fun j hj => by simpa using hb j hj)
    simpa using this
  · intro hn
    have := h.2 (fun j hj => by simpa using hn j hj)
    simpa using this

/-- Witness for the amended C7: with every attempt passing the checks (and
all outcomes `UNDONE`), the loop stops after the first of 3 tries. -/
theorem insertion_translate_loop_spec_witness :
    (0 : ℕ) < 3 ∧ attemptPasses ((fun _ : ℕ =>
        (⟨false, true, ExecOutcome.undone⟩ : TransAttempt)) 0) ∧
      insertionTranslate (fun _ : ℕ =>
        (⟨false, true, ExecOutcome.undone⟩ : TransAttempt)) 3 = (0 + 1, some 0) :=
  ⟨by decide, by decide,
    (insertion_translate_loop_spec
        (fun _ : ℕ => (⟨false, true, ExecOutcome.undone⟩ : TransAttempt)) 3).1
      0 (by decide) (by decide) (fun j hj => absurd hj (by omega))⟩

/-- In exact arithmetic `calculateCollapseTime` computes
`A0 / (A0 - A1)` where `A0`/`A1` are the signed areas of the opposite edge
with the start resp. target position. -/
theorem calculateCollapseTime_eq (p q oldV : Pt) (dx dy : ℚ)
    (hA0 : tDet p q oldV ≠ 0)
    (_hne : tDet p q oldV ≠ tDet p q ⟨oldV.x + dx, oldV.y + dy⟩) :
    collapseTimeAt p q oldV 2 dx dy =
      tDet p q oldV /
        (tDet p q oldV - tDet p q ⟨oldV.x + dx, oldV.y + dy⟩) := by
  have hOld : (oldV.x - p.x) * (q.y - p.y) - (oldV.y - p.y) * (q.x - p.x) =
      -(tDet p q oldV) := by unfold tDet; ring
  have hNew : (q.x - p.x) * (oldV.y - p.y + dy) - (q.y - p.y) * (oldV.x - p.x + dx) =
      tDet p q ⟨oldV.x + dx, oldV.y + dy⟩ := by unfold tDet; ring
  show (1 : ℚ) / (((q.x - p.x) * (oldV.y - p.y + dy) -
      (q.y - p.y) * (oldV.x - p.x + dx)) /
      ((oldV.x - p.x) * (q.y - p.y) - (oldV.y - p.y) * (q.x - p.x)) + 1) = _
  rw [hOld, hNew]
  rw [div_neg, neg_add_eq_sub]
  have h2 : (1 : ℚ) - tDet p q ⟨oldV.x + dx, oldV.y + dy⟩ / tDet p q oldV =
      (tDet p q oldV - tDet p q ⟨oldV.x + dx, oldV.y + dy⟩) / tDet p q oldV := by
    field_simp
  rw [h2, one_div_div]

/-- Claim C2: during initial event-queue generation, a triangle incident to
the moving vertex whose opposite edge is `(p, q)`, with
`A0 = signedArea(p, q, oldV) ≠ 0` and `A1 = signedArea(p, q, newV)`, is
*not* enqueued exactly when `A0` and `A1` have the same nonzero sign
(`0 < A0 * A1`); otherwise it is enqueued with collapse time
`A0 / (A0 - A1)` clamped into `[0, 1]`. -/
theorem initial_queue_step_spec (p q oldV : Pt) (dx dy : ℚ)
    (hA0 : tDet p q oldV ≠ 0) :
    (initialQueueStep p q oldV dx dy = .skip ↔
      0 < tDet p q oldV * tDet p q ⟨oldV.x + dx, oldV.y + dy⟩) ∧
    (¬ 0 < tDet p q oldV * tDet p q ⟨oldV.x + dx, oldV.y + dy⟩ →
      initialQueueStep p q oldV dx dy =
        .enqueue (min 1 (max 0 (tDet p q oldV /
          (tDet p q oldV - tDet p q ⟨oldV.x + dx, oldV.y + dy⟩))))) := by
  have hC : (signedAreaDouble p q ⟨oldV.x + dx, oldV.y + dy⟩ ≠ 0 ∧
      signbit (signedAreaDouble p q oldV) =
        signbit (signedAreaDouble p q ⟨oldV.x + dx, oldV.y + dy⟩)) ↔
      0 < tDet p q oldV * tDet p q ⟨oldV.x + dx, oldV.y + dy⟩ := by
    rw [signedAreaDouble_eq_tDet, signedAreaDouble_eq_tDet]
    unfold signbit
    rw [decide_eq_decide]
    constructor
    · rintro ⟨hA1, hs⟩
      rcases lt_trichotomy (tDet p q oldV) 0 with h0 | h0 | h0
      · exact mul_pos_of_neg_of_neg h0 (hs.mp h0)
      · exact absurd h0 hA0
      · have h1 : ¬ tDet p q ⟨oldV.x + dx, oldV.y + dy⟩ < 0 := by
          intro hc; exact absurd (hs.mpr hc) (by linarith)
        have h1b : 0 < tDet p q ⟨oldV.x + dx, oldV.y + dy⟩ :=
          lt_of_le_of_ne (le_of_not_lt h1) (Ne.symm hA1)
        exact mul_pos h0 h1b
    · intro hpos
      have hA1 : tDet p q ⟨oldV.x + dx, oldV.y + dy⟩ ≠ 0 := by
        intro hc; rw [hc, mul_zero] at hpos; exact lt_irrefl 0 hpos
      refine ⟨hA1, ?_⟩
      rcases mul_pos_iff.mp hpos with ⟨h1, h2⟩ | ⟨h1, h2⟩
      · constructor <;> intro <;> linarith
      · constructor <;> intro <;> linarith
  unfold initialQueueStep
  rw [if_neg (by rw [signedAreaDouble_eq_tDet]; exact hA0)]
  constructor
  · by_cases hc : 0 < tDet p q oldV * tDet p q ⟨oldV.x + dx, oldV.y + dy⟩
    · rw [if_pos (hC.mpr hc)]
      exact ⟨fun _ => hc, fun _ => rfl⟩
    · rw [if_neg (fun h => hc (hC.mp h))]
      exact ⟨fun h => absurd h (by simp), fun h => absurd h hc⟩
  · intro hnpos
    rw [if_neg (fun h => hnpos (hC.mp h))]
    have hne : tDet p q oldV ≠ tDet p q ⟨oldV.x + dx, oldV.y + dy⟩ := by
      intro hc
      apply hnpos
      rw [← hc]
      exact mul_self_pos.mpr hA0
    rw [calculateCollapseTime_eq p q oldV dx dy hA0 hne]
    show QueueAction.enqueue
        (if 1 < (if tDet p q oldV /
              (tDet p q oldV - tDet p q ⟨oldV.x + dx, oldV.y + dy⟩) < 0 then (0 : ℚ)
            else tDet p q oldV /
              (tDet p q oldV - tDet p q ⟨oldV.x + dx, oldV.y + dy⟩)) then (1 : ℚ)
          else if tDet p q oldV /
              (tDet p q oldV - tDet p q ⟨oldV.x + dx, oldV.y + dy⟩) < 0 then (0 : ℚ)
            else tDet p q oldV /
              (tDet p q oldV - tDet p q ⟨oldV.x + dx, oldV.y + dy⟩)) = _
    congr 1
    rw [max_def, min_def]
    split_ifs <;> linarith

/-- Witness for C2 with `p = (0,0)`, `q = (1,0)`, `oldV = (0,1)` and
translation vector `(0, -2)`: the opposite edge is crossed, `A0 = 1`,
`A1 = -1`, and the triangle is enqueued with collapse time `1/2`. -/
theorem initial_queue_step_spec_witness :
    tDet ⟨0, 0⟩ ⟨1, 0⟩ ⟨0, 1⟩ ≠ 0 ∧
    ¬ 0 < tDet ⟨0, 0⟩ ⟨1, 0⟩ ⟨0, 1⟩ *
        tDet ⟨0, 0⟩ ⟨1, 0⟩ ⟨(⟨0, 1⟩ : Pt).x + 0, (⟨0, 1⟩ : Pt).y + (-2)⟩ ∧
    initialQueueStep ⟨0, 0⟩ ⟨1, 0⟩ ⟨0, 1⟩ 0 (-2) =
      .enqueue (min 1 (max 0 (tDet ⟨0, 0⟩ ⟨1, 0⟩ ⟨0, 1⟩ /
        (tDet ⟨0, 0⟩ ⟨1, 0⟩ ⟨0, 1⟩ -
          tDet ⟨0, 0⟩ ⟨1, 0⟩ ⟨(⟨0, 1⟩ : Pt).x + 0, (⟨0, 1⟩ : Pt).y + (-2)⟩)))) :=
  ⟨by norm_num [tDet], by norm_num [tDet],
    (initial_queue_step_spec ⟨0, 0⟩ ⟨1, 0⟩ ⟨0, 1⟩ 0 (-2) (by norm_num [tDet])).2
      (by norm_num [tDet])⟩

/-- Claim C10: for a vertex whose incident edges all have positive length,
`getDirectedEdgeLength(alpha)` returns the mean length of the two edges
incident to the vertex of the (unique) incident triangle covering
direction `alpha` — a positive value — and when no incident triangle
covers `alpha` it returns the negated mean of all incident edge lengths —
a negative value. -/
theorem getDirectedEdgeLength_spec (ts : List IncidentTri)
    (edgeLens : List ℚ) (alpha : ℚ)
    (hlens : ∀ t ∈ ts, 0 < t.eLen ∧ 0 < t.fLen)
    (hmlens : ∀ l ∈ edgeLens, 0 < l) (hne : edgeLens ≠ []) :
    (∀ t ∈ ts, coversDir t alpha = true →
      (∀ t2 ∈ ts, coversDir t2 alpha = true → t2 = t) →
      getDirectedEdgeLength ts edgeLens alpha = meanLen t ∧ 0 < meanLen t) ∧
    ((∀ t ∈ ts, coversDir t alpha = false) →
      getDirectedEdgeLength ts edgeLens alpha = - getMediumEdgeLength edgeLens ∧
        getDirectedEdgeLength ts edgeLens alpha < 0) := by
  have hmed : 0 < getMediumEdgeLength edgeLens := by
    unfold getMediumEdgeLength
    apply div_pos
    · exact List.sum_pos edgeLens hmlens hne
    · have : 0 < edgeLens.length := List.length_pos.mpr hne
      exact_mod_cast this
  induction ts with
  | nil =>
    refine ⟨fun t ht => absurd ht (List.not_mem_nil t), fun _ => ⟨rfl, ?_⟩⟩
    show - getMediumEdgeLength edgeLens < 0
    linarith
  | cons t0 rest ih =>
    have hlens0 := hlens t0 (List.mem_cons_self t0 rest)
    have hlensr : ∀ t ∈ rest, 0 < t.eLen ∧ 0 < t.fLen :=
      fun t ht => hlens t (List.mem_cons_of_mem t0 ht)
    have ihr := ih hlensr
    constructor
    · intro t ht hcov huniq
      by_cases hc0 : coversDir t0 alpha = true
      · obtain rfl : t0 = t := huniq t0 (List.mem_cons_self t0 rest) hc0
        have hml : 0 < meanLen t0 := by
          unfold meanLen; linarith [hlens0.1, hlens0.2]
        have hr : getRange t0 alpha = meanLen t0 := by
          unfold getRange; rw [if_pos hc0]
        refine ⟨?_, hml⟩
        unfold getDirectedEdgeLength
        rw [hr, if_pos hml]
      · have hr0 : getRange t0 alpha = -1 := by
          unfold getRange; rw [if_neg hc0]
        have htr : t ∈ rest := by
          rcases List.mem_cons.mp ht with rfl | h
          · exact absurd hcov hc0
          · exact h
        have huniqr : ∀ t2 ∈ rest, coversDir t2 alpha = true → t2 = t :=
          fun t2 ht2 hc2 => huniq t2 (List.mem_cons_of_mem t0 ht2) hc2
        have hrec := ihr.1 t htr hcov huniqr
        refine ⟨?_, hrec.2⟩
        unfold getDirectedEdgeLength
        rw [hr0, if_neg (by norm_num)]
        exact hrec.1
    · intro hnone
      have hf : coversDir t0 alpha = false := hnone t0 (List.mem_cons_self t0 rest)
      have hr0 : getRange t0 alpha = -1 := by
        unfold getRange
        rw [if_neg (by simp [hf])]
      have hrec := ihr.2 (fun t ht => hnone t (List.mem_cons_of_mem t0 ht))
      unfold getDirectedEdgeLength
      rw [hr0, if_neg (by norm_num)]
      exact hrec

/-- Witness for C10: one incident triangle with edge angles `1` and `0`
and edge lengths `2` and `4`.  Direction `1/2` is covered and yields the
mean `3`; direction `2` is not covered and yields the negated medium edge
length `-3`. -/
theorem getDirectedEdgeLength_spec_witness :
    getDirectedEdgeLength [⟨1, 0, 2, 4⟩] [2, 4] (1 / 2) =
        meanLen ⟨1, 0, 2, 4⟩ ∧
      0 < meanLen (⟨1, 0, 2, 4⟩ : IncidentTri) ∧
      getDirectedEdgeLength [⟨1, 0, 2, 4⟩] [2, 4] 2 =
        - getMediumEdgeLength [2, 4] ∧
      getDirectedEdgeLength [⟨1, 0, 2, 4⟩] [2, 4] 2 < 0 := by
  have hlens : ∀ t ∈ [(⟨1, 0, 2, 4⟩ : IncidentTri)], 0 < t.eLen ∧ 0 < t.fLen := by
    intro t ht
    rw [List.mem_singleton] at ht
    subst ht
    exact ⟨by norm_num, by norm_num⟩
  have hml : ∀ l ∈ [(2 : ℚ), 4], 0 < l := by
    intro l hl
    rcases List.mem_cons.mp hl with rfl | hl2
    · norm_num
    · rw [List.mem_singleton] at hl2; subst hl2; norm_num
  have hcov : coversDir ⟨1, 0, 2, 4⟩ (1 / 2) = true := by
    norm_num [coversDir, piDouble]
  have hncov : coversDir ⟨1, 0, 2, 4⟩ 2 = false := by
    norm_num [coversDir, piDouble]
  have h1 := ((getDirectedEdgeLength_spec [⟨1, 0, 2, 4⟩] [2, 4] (1 / 2)
      hlens hml (by simp)).1 ⟨1, 0, 2, 4⟩ (List.mem_singleton.mpr rfl) hcov
      (fun t2 ht2 _ => List.mem_singleton.mp ht2))
  have h2 := ((getDirectedEdgeLength_spec [⟨1, 0, 2, 4⟩] [2, 4] 2
      hlens hml (by simp)).2 (fun t ht => by
        rw [List.mem_singleton] at ht; subst ht; exact hncov))
  exact ⟨h1.1, h1.2, h2.1, h2.2⟩

/-- Splitting a list by a decidable predicate preserves the total
length. -/
theorem length_filter_not_add {α : Type} (l : List α) (p : α → Bool) :
    (l.filter (fun x => ! p x)).length + (l.filter p).length = l.length := by
  induction l with
  | nil => rfl
  | cons x xs ih =>
    rw [List.filter_cons, List.filter_cons]
    cases h : p x with
    | false =>
      simp [h]
      omega
    | true =>
      simp [h]
      omega

/-- Looking up a vertex id that occurs only in the appended singleton
finds exactly the appended coordinates. -/
theorem coordOf_append_fresh (vs : List (ℕ × Pt)) (rg : List ℕ)
    (es : List MEdge) (ts : List MTri) (m : ℕ) (pt : Pt)
    (hfresh : ∀ p ∈ vs, p.1 ≠ m) :
    coordOf ⟨vs ++ [(m, pt)], rg, es, ts⟩ m = pt := by
  unfold coordOf
  show ((List.find? (fun p => p.1 = m) (vs ++ [(m, pt)])).map Prod.snd).getD ⟨0, 0⟩ = pt
  rw [List.find?_append]
  have hfind : vs.find? (fun p => decide (p.1 = m)) = none := by
    rw [List.find?_eq_none]
    intro p hp
    simpa using hfresh p hp
  rw [hfind]
  simp only [Option.none_or]
  rw [List.find?_cons_of_pos _ (by simp)]
  rfl

/-- Claim C3: `Insertion::execute` on a POLYGON edge `(v0, v1)` with
incident triangles `(v0, v1, a)` and `(v0, v1, b)` creates exactly one new
vertex `m` at the midpoint of `(v0, v1)`, appends it to the chosen ring
(the ring's vertex count grows by exactly 1), destroys the edge and its
two triangles, creates POLYGON edges `(v0, m)`, `(m, v1)` and
TRIANGULATION edges `(m, a)`, `(m, b)` (edge count grows by 3), and
creates the four triangles `(v0, m, a)`, `(m, v1, a)`, `(v0, m, b)`,
`(m, v1, b)` with `internal` flags inherited from the two destroyed
triangles respectively (triangle count grows by 2). -/
theorem insertion_execute_spec (s : TriState) (v0 v1 m : ℕ) (t0 t1 : MTri)
    (a b : ℕ)
    (htris : trisWithEdge s v0 v1 = [t0, t1])
    (ha : triOtherVertex t0 v0 v1 = a) (hb : triOtherVertex t1 v0 v1 = b)
    (hedge : (s.edges.filter (fun e => edgeConnects e v0 v1)).length = 1)
    (hv01 : v0 ≠ v1) (hm0 : m ≠ v0) (hm1 : m ≠ v1)
    (hav0 : a ≠ v0) (hav1 : a ≠ v1) (hbv0 : b ≠ v0) (hbv1 : b ≠ v1)
    (hfresh : ∀ p ∈ s.verts, p.1 ≠ m) :
    (insertionExecute s v0 v1 m).ring = s.ring ++ [m] ∧
    (insertionExecute s v0 v1 m).ring.length = s.ring.length + 1 ∧
    coordOf (insertionExecute s v0 v1 m) m =
      ⟨((coordOf s v0).x + (coordOf s v1).x) / 2,
       ((coordOf s v0).y + (coordOf s v1).y) / 2⟩ ∧
    (⟨v0, m, .polygonK⟩ : MEdge) ∈ (insertionExecute s v0 v1 m).edges ∧
    (⟨m, v1, .polygonK⟩ : MEdge) ∈ (insertionExecute s v0 v1 m).edges ∧
    (⟨m, a, .triangulationK⟩ : MEdge) ∈ (insertionExecute s v0 v1 m).edges ∧
    (⟨m, b, .triangulationK⟩ : MEdge) ∈ (insertionExecute s v0 v1 m).edges ∧
    (∀ e ∈ (insertionExecute s v0 v1 m).edges, edgeConnects e v0 v1 = false) ∧
    (insertionExecute s v0 v1 m).edges.length = s.edges.length + 3 ∧
    (⟨v0, m, a, t0.internal⟩ : MTri) ∈ (insertionExecute s v0 v1 m).tris ∧
    (⟨v1, m, a, t0.internal⟩ : MTri) ∈ (insertionExecute s v0 v1 m).tris ∧
    (⟨v0, m, b, t1.internal⟩ : MTri) ∈ (insertionExecute s v0 v1 m).tris ∧
    (⟨v1, m, b, t1.internal⟩ : MTri) ∈ (insertionExecute s v0 v1 m).tris ∧
    (∀ t ∈ (insertionExecute s v0 v1 m).tris, triHasEdge t v0 v1 = false) ∧
    (insertionExecute s v0 v1 m).tris.length = s.tris.length + 2 := by
  subst ha
  subst hb
  have hview : insertionExecute s v0 v1 m =
      { verts := s.verts ++ [(m, ⟨(coordOf s v0).x + ((coordOf s v1).x - (coordOf s v0).x) / 2,
          (coordOf s v0).y + ((coordOf s v1).y - (coordOf s v0).y) / 2⟩)]
        ring := s.ring ++ [m]
        edges := (s.edges.filter (fun e => ! edgeConnects e v0 v1)) ++
          [⟨v0, m, .polygonK⟩, ⟨m, v1, .polygonK⟩,
           ⟨m, triOtherVertex t0 v0 v1, .triangulationK⟩,
           ⟨m, triOtherVertex t1 v0 v1, .triangulationK⟩]
        tris := (s.tris.filter (fun t => ! triHasEdge t v0 v1)) ++
          [⟨v0, m, triOtherVertex t0 v0 v1, t0.internal⟩,
           ⟨v0, m, triOtherVertex t1 v0 v1, t1.internal⟩,
           ⟨v1, m, triOtherVertex t0 v0 v1, t0.internal⟩,
           ⟨v1, m, triOtherVertex t1 v0 v1, t1.internal⟩] } := by
    unfold insertionExecute
    rw [htris]
  rw [hview]
  refine ⟨rfl, by simp, ?_, by simp, by simp, by simp, by simp, ?_, ?_,
    by simp, by simp, by simp, by simp, ?_, ?_⟩
  · rw [coordOf_append_fresh s.verts _ _ _ m _ hfresh]
    simp only [Pt.mk.injEq]
    constructor
    · ring
    · ring
  · intro e he
    rcases List.mem_append.mp he with hl | hr
    · have := List.of_mem_filter hl
      simpa using this
    · fin_cases hr <;> simp only [edgeConnects, decide_eq_false_iff_not] <;> omega
  · have hsplit := length_filter_not_add s.edges (fun e => edgeConnects e v0 v1)
    simp only [List.length_append, List.length_cons, List.length_nil]
    omega
  · intro t ht
    rcases List.mem_append.mp ht with hl | hr
    · have := List.of_mem_filter hl
      simpa using this
    · fin_cases hr <;>
        simp only [triHasEdge, triHasVert, decide_eq_false_iff_not,
          decide_eq_true_eq] <;> omega
  · have hlen2 : (s.tris.filter (fun t => triHasEdge t v0 v1)).length = 2 := by
      have heq : s.tris.filter (fun t => triHasEdge t v0 v1) = [t0, t1] := htris
      rw [heq]
      rfl
    have hsplit := length_filter_not_add s.tris (fun t => triHasEdge t v0 v1)
    simp only [List.length_append, List.length_cons, List.length_nil]
    omega

/-- Witness for C3: inserting vertex `4` into the POLYGON edge `(0, 1)` of
the concrete state appends `4` to the ring, places it at the midpoint,
creates the new TRIANGULATION edge `(4, 2)` and the internal triangle
`(0, 4, 2)`, and grows the triangle list by 2. -/
theorem insertion_execute_spec_witness :
    (insertionExecute insertionWitnessState 0 1 4).ring =
        insertionWitnessState.ring ++ [4] ∧
      coordOf (insertionExecute insertionWitnessState 0 1 4) 4 =
        ⟨((coordOf insertionWitnessState 0).x +
            (coordOf insertionWitnessState 1).x) / 2,
         ((coordOf insertionWitnessState 0).y +
            (coordOf insertionWitnessState 1).y) / 2⟩ ∧
      (⟨4, 2, .triangulationK⟩ : MEdge) ∈
        (insertionExecute insertionWitnessState 0 1 4).edges ∧
      (⟨0, 4, 2, true⟩ : MTri) ∈
        (insertionExecute insertionWitnessState 0 1 4).tris ∧
      (insertionExecute insertionWitnessState 0 1 4).tris.length =
        insertionWitnessState.tris.length + 2 := by
  have h := insertion_execute_spec insertionWitnessState 0 1 4
    ⟨0, 1, 2, true⟩ ⟨0, 1, 3, false⟩ 2 3
    (by decide) (by decide) (by decide) (by decide) (by decide) (by decide)
    (by decide) (by decide) (by decide) (by decide) (by decide) (by decide)
  exact ⟨h.1, h.2.2.1, h.2.2.2.2.2.1, h.2.2.2.2.2.2.2.2.2.1, h.2.2.2.2.2.2.2.2.2.2.2.2.2.2⟩

theorem signbit_eq_iff_of_ne {x y : ℚ} (hx : x ≠ 0) (hy : y ≠ 0) :
    (signbit x = signbit y) ↔ sameSign x y := by
  rcases hx.lt_or_lt with h1 | h1 <;> rcases hy.lt_or_lt with h2 | h2 <;>
    simp [signbit, sameSign, h1, h2, lt_asymm h1, lt_asymm h2]

theorem insideTriangle_iff_strict (v0 v1 v2 p : Pt)
    (h0 : tDet v0 v1 p ≠ 0) (h1 : tDet v1 v2 p ≠ 0)
    (h2 : tDet v2 v0 p ≠ 0) :
    insideTriangle v0 v1 v2 p = true ↔ strictlyInside v0 v1 v2 p := by
  unfold insideTriangle
  rw [signedAreaDouble_eq_tDet, signedAreaDouble_eq_tDet,
    signedAreaDouble_eq_tDet]
  rcases h0.lt_or_lt with a0 | a0 <;> rcases h1.lt_or_lt with a1 | a1 <;>
    rcases h2.lt_or_lt with a2 | a2 <;>
    simp [signbit, strictlyInside, a0, a1, a2, lt_asymm a0, lt_asymm a1,
      lt_asymm a2]

theorem rotateRight_concat (a : Pt) (l : List Pt) :
    rotateRight (l ++ [a]) = a :: l := by
  unfold rotateRight
  rw [List.getLast?_concat]
  simp [List.dropLast_concat]

theorem starLoop_of_small (k : Pt) (rd : ℚ) (fuel : ℕ) (s : StarState)
    (h : ¬ 3 < s.chain.length) : starLoop k rd fuel s = s := by
  cases fuel <;> simp [starLoop, h]

/-- C4: in Polygon::triangulateStar the ear (v0, v1, v2) at the front of
the chain is clipped — emitting the triangle, adding the diagonal
(v0, v2) and backtracking one vertex so that the new window is
(prev v0, v0, v2) — exactly when the clip condition holds, and the window
advances one vertex otherwise; under nondegeneracy of the kernel against
the ear's sides, the clip condition is equivalent to the spec's rule that
the kernel is not strictly interior to the ear and the ear's signed area
is nonzero with the same sign as the reference orientation; the reference
is orient(v0, v1, kernel) of the initial window; and once exactly three
vertices remain the loop stops, the final triangle is emitted and the
chain is emptied. -/
theorem triangulateStar_spec (k : Pt) (rd : ℚ) (v0 v1 v2 w x y z : Pt)
    (mid : List Pt) (ts : List (Pt × Pt × Pt)) (es : List (Pt × Pt))
    (fuel : ℕ)
    (h0 : tDet v0 v1 k ≠ 0) (h1 : tDet v1 v2 k ≠ 0)
    (h2 : tDet v2 v0 k ≠ 0) (hrd : rd ≠ 0) :
    (clipCond k rd v0 v1 v2 = true →
      starStep k rd ⟨v0 :: v1 :: v2 :: (mid ++ [w]), ts, es⟩ =
        ⟨w :: v0 :: v2 :: mid, ts ++ [(v0, v1, v2)], es ++ [(v0, v2)]⟩) ∧
    (clipCond k rd v0 v1 v2 = false →
      starStep k rd ⟨v0 :: v1 :: v2 :: (mid ++ [w]), ts, es⟩ =
        ⟨v1 :: v2 :: (mid ++ [w, v0]), ts, es⟩) ∧
    (clipCond k rd v0 v1 v2 = true ↔
      ¬ strictlyInside v0 v1 v2 k ∧ signedAreaDouble v0 v1 v2 ≠ 0 ∧
        sameSign (signedAreaDouble v0 v1 v2) rd) ∧
    starReferenceDet k (v0 :: v1 :: v2 :: (mid ++ [w])) =
      signedAreaDouble v0 v1 k ∧
    triangulateStarRun k rd fuel ⟨[x, y, z], ts, es⟩ =
      ⟨[], ts ++ [(x, y, z)], es⟩ := by
  refine ⟨?_, ?_, ?_, rfl, ?_⟩
  · intro h
    have hc : v0 :: v2 :: (mid ++ [w]) = (v0 :: v2 :: mid) ++ [w] := by
      simp
    simp only [starStep, h, if_true, hc, rotateRight_concat]
  · intro h
    simp [starStep, h]
  · unfold clipCond
    simp only [Bool.and_eq_true, Bool.not_eq_true', beq_iff_eq,
      decide_eq_true_eq]
    constructor
    · rintro ⟨⟨hin, hA⟩, hsb⟩
      refine ⟨?_, hA, ?_⟩
      · intro hstrict
        rw [← insideTriangle_iff_strict v0 v1 v2 k h0 h1 h2] at hstrict
        rw [hin] at hstrict
        exact Bool.false_ne_true hstrict
      · rw [signbit_eq_iff_of_ne hA hrd] at hsb
        exact hsb
    · rintro ⟨hni, hA, hss⟩
      refine ⟨⟨?_, hA⟩, (signbit_eq_iff_of_ne hA hrd).2 hss⟩
      cases hI : insideTriangle v0 v1 v2 k
      · rfl
      · exact absurd ((insideTriangle_iff_strict v0 v1 v2 k h0 h1 h2).1 hI)
          hni
  · unfold triangulateStarRun
    rw [starLoop_of_small k rd fuel _ (by simp)]

/-- Witness for C4 at a concrete square chain with kernel (1, 1/2) and
reference determinant 1. -/
theorem triangulateStar_spec_witness :
    (tDet ⟨0, 0⟩ ⟨2, 0⟩ ⟨1, 1/2⟩ ≠ 0 ∧ tDet ⟨2, 0⟩ ⟨2, 2⟩ ⟨1, 1/2⟩ ≠ 0 ∧
      tDet ⟨2, 2⟩ ⟨0, 0⟩ ⟨1, 1/2⟩ ≠ 0 ∧ (1 : ℚ) ≠ 0) ∧
    ((clipCond ⟨1, 1/2⟩ 1 ⟨0, 0⟩ ⟨2, 0⟩ ⟨2, 2⟩ = true →
      starStep ⟨1, 1/2⟩ 1 ⟨[⟨0, 0⟩, ⟨2, 0⟩, ⟨2, 2⟩, ⟨0, 2⟩], [], []⟩ =
        ⟨[⟨0, 2⟩, ⟨0, 0⟩, ⟨2, 2⟩], [(⟨0, 0⟩, ⟨2, 0⟩, ⟨2, 2⟩)],
          [(⟨0, 0⟩, ⟨2, 2⟩)]⟩) ∧
    (clipCond ⟨1, 1/2⟩ 1 ⟨0, 0⟩ ⟨2, 0⟩ ⟨2, 2⟩ = false →
      starStep ⟨1, 1/2⟩ 1 ⟨[⟨0, 0⟩, ⟨2, 0⟩, ⟨2, 2⟩, ⟨0, 2⟩], [], []⟩ =
        ⟨[⟨2, 0⟩, ⟨2, 2⟩, ⟨0, 2⟩, ⟨0, 0⟩], [], []⟩) ∧
    (clipCond ⟨1, 1/2⟩ 1 ⟨0, 0⟩ ⟨2, 0⟩ ⟨2, 2⟩ = true ↔
      ¬ strictlyInside ⟨0, 0⟩ ⟨2, 0⟩ ⟨2, 2⟩ ⟨1, 1/2⟩ ∧
        signedAreaDouble ⟨0, 0⟩ ⟨2, 0⟩ ⟨2, 2⟩ ≠ 0 ∧
        sameSign (signedAreaDouble ⟨0, 0⟩ ⟨2, 0⟩ ⟨2, 2⟩) 1) ∧
    starReferenceDet ⟨1, 1/2⟩ [⟨0, 0⟩, ⟨2, 0⟩, ⟨2, 2⟩, ⟨0, 2⟩] =
      signedAreaDouble ⟨0, 0⟩ ⟨2, 0⟩ ⟨1, 1/2⟩ ∧
    triangulateStarRun ⟨1, 1/2⟩ 1 1 ⟨[⟨0, 0⟩, ⟨2, 0⟩, ⟨2, 2⟩], [], []⟩ =
      ⟨[], [(⟨0, 0⟩, ⟨2, 0⟩, ⟨2, 2⟩)], []⟩) :=
  ⟨⟨by norm_num [tDet], by norm_num [tDet], by norm_num [tDet], by norm_num⟩,
    triangulateStar_spec ⟨1, 1/2⟩ 1 ⟨0, 0⟩ ⟨2, 0⟩ ⟨2, 2⟩ ⟨0, 2⟩ ⟨0, 0⟩
      ⟨2, 0⟩ ⟨2, 2⟩ [] [] [] 1 (by norm_num [tDet]) (by norm_num [tDet])
      (by norm_num [tDet]) (by norm_num)⟩

theorem map_setPos_eq_self (V : List (ℕ × Pt)) (v : ℕ) (p : Pt)
    (h : ∀ pr ∈ V, pr.1 = v → pr.2 = p) :
    V.map (fun pr => if pr.1 = v then (pr.1, p) else pr) = V := by
  induction V with
  | nil => rfl
  | cons a t ih =>
    simp only [List.map_cons]
    rw [ih (fun pr hm => h pr (List.mem_cons_of_mem a hm))]
    by_cases ha : a.1 = v
    · have h2 := h a (List.mem_cons_self a t) ha
      have h3 : (if a.1 = v then (a.1, p) else a) = a := by
        rw [if_pos ha, ← h2]
      rw [h3]
    · simp [ha]

theorem setPosition_setPosition (s : TriState) (v : ℕ) (p q : Pt) :
    setPosition (setPosition s v p) v q = setPosition s v q := by
  unfold setPosition
  cases s
  simp only [List.map_map, TriState.mk.injEq, and_true]
  congr 1
  funext pr
  by_cases h : pr.1 = v <;> simp [h, Function.comp]

theorem undoFlip_setPosition (s : TriState) (v : ℕ) (p : Pt) (f : Flip) :
    undoFlip (setPosition s v p) f = setPosition (undoFlip s f) v p := rfl

theorem undoStack_setPosition (l : List Flip) (s : TriState) (v : ℕ)
    (p : Pt) :
    undoStack (setPosition s v p) l = setPosition (undoStack s l) v p := by
  induction l generalizing s with
  | nil => rfl
  | cons f fs ih => simp [undoStack, undoFlip_setPosition, ih]

theorem undoStack_append (s : TriState) (l1 l2 : List Flip) :
    undoStack s (l1 ++ l2) = undoStack (undoStack s l1) l2 := by
  induction l1 generalizing s with
  | nil => rfl
  | cons f fs ih => simp [undoStack, ih]

theorem filter_nil_of_subfilter {α : Type} (l : List α) (p q : α → Bool)
    (h : l.filter p = []) : (l.filter q).filter p = [] := by
  rw [List.filter_eq_nil_iff] at h ⊢
  intro a ha
  exact h a (List.mem_of_mem_filter ha)

theorem filter_not_sub {α : Type} (l : List α) (p q : α → Bool)
    (h : l.filter p = []) : (l.filter q).filter (fun a => ! p a) =
      l.filter q := by
  rw [List.filter_eq_nil_iff] at h
  rw [List.filter_eq_self]
  intro a ha
  simp [h a (List.mem_of_mem_filter ha)]

theorem applyFlip_filter_new (s : TriState) (f : Flip) (h : flipOK s f) :
    (applyFlip s f).tris.filter (fun t => triHasEdge t f.newD0 f.newD1) =
      [⟨f.newD0, f.newD1, f.oldD0, firstTriInternal s f.oldD0 f.oldD1⟩,
       ⟨f.newD0, f.newD1, f.oldD1, firstTriInternal s f.oldD0 f.oldD1⟩] := by
  obtain ⟨hE, hT, hEn, hTn⟩ := h
  have h1 : (applyFlip s f).tris =
      (s.tris.filter (fun t => ! triHasEdge t f.oldD0 f.oldD1)) ++
        [⟨f.newD0, f.newD1, f.oldD0, firstTriInternal s f.oldD0 f.oldD1⟩,
         ⟨f.newD0, f.newD1, f.oldD1, firstTriInternal s f.oldD0 f.oldD1⟩] :=
    rfl
  rw [h1, List.filter_append, filter_nil_of_subfilter _ _ _ hTn]
  simp [triHasEdge, triHasVert]

theorem undoFlip_applyFlip (s : TriState) (f : Flip) (h : flipOK s f) :
    Restores (undoFlip (applyFlip s f) f) s := by
  have hIun : firstTriInternal (applyFlip s f) f.newD0 f.newD1 =
      firstTriInternal s f.oldD0 f.oldD1 := by
    unfold firstTriInternal
    rw [applyFlip_filter_new s f h]
    rfl
  obtain ⟨hE, hT, hEn, hTn⟩ := h
  refine ⟨rfl, rfl, ?_, ?_⟩
  · show List.Perm (((applyFlip s f).edges.filter
      (fun e => ! edgeConnects e f.newD0 f.newD1)) ++
        [⟨f.oldD0, f.oldD1, .triangulationK⟩]) s.edges
    have h2 : (applyFlip s f).edges =
        (s.edges.filter (fun e => ! edgeConnects e f.oldD0 f.oldD1)) ++
          [⟨f.newD0, f.newD1, .triangulationK⟩] := rfl
    rw [h2, List.filter_append, filter_not_sub _ _ _ hEn]
    have h3 : ([⟨f.newD0, f.newD1, .triangulationK⟩] : List MEdge).filter
        (fun e => ! edgeConnects e f.newD0 f.newD1) = [] := by
      simp [edgeConnects]
    rw [h3, List.append_nil]
    have hperm := List.filter_append_perm
      (fun e => edgeConnects e f.oldD0 f.oldD1) s.edges
    rw [hE] at hperm
    exact List.perm_append_comm.trans hperm
  · show List.Perm (((applyFlip s f).tris.filter
      (fun t => ! triHasEdge t f.newD0 f.newD1)) ++
        [⟨f.oldD0, f.oldD1, f.newD0,
            firstTriInternal (applyFlip s f) f.newD0 f.newD1⟩,
         ⟨f.oldD0, f.oldD1, f.newD1,
            firstTriInternal (applyFlip s f) f.newD0 f.newD1⟩]) s.tris
    rw [hIun]
    have h2 : (applyFlip s f).tris =
        (s.tris.filter (fun t => ! triHasEdge t f.oldD0 f.oldD1)) ++
          [⟨f.newD0, f.newD1, f.oldD0, firstTriInternal s f.oldD0 f.oldD1⟩,
           ⟨f.newD0, f.newD1, f.oldD1,
              firstTriInternal s f.oldD0 f.oldD1⟩] := rfl
    rw [h2, List.filter_append, filter_not_sub _ _ _ hTn]
    have h3 : ([⟨f.newD0, f.newD1, f.oldD0,
          firstTriInternal s f.oldD0 f.oldD1⟩,
        ⟨f.newD0, f.newD1, f.oldD1,
          firstTriInternal s f.oldD0 f.oldD1⟩] : List MTri).filter
        (fun t => ! triHasEdge t f.newD0 f.newD1) = [] := by
      simp [triHasEdge, triHasVert]
    rw [h3, List.append_nil]
    have hperm := List.filter_append_perm
      (fun t => triHasEdge t f.oldD0 f.oldD1) s.tris
    rw [hT] at hperm
    exact List.perm_append_comm.trans hperm

theorem undoFlip_congr (x y : TriState) (f : Flip)
    (hv : x.verts = y.verts) (hr : x.ring = y.ring)
    (he : List.Perm x.edges y.edges) (ht : List.Perm x.tris y.tris)
    (hfil : y.tris.filter (fun t => triHasEdge t f.newD0 f.newD1) ≠ [])
    (hflag : ∀ t ∈ y.tris.filter (fun t => triHasEdge t f.newD0 f.newD1),
      t.internal = firstTriInternal y f.newD0 f.newD1) :
    Restores (undoFlip x f) (undoFlip y f) := by
  have hpf : List.Perm
      (x.tris.filter (fun t => triHasEdge t f.newD0 f.newD1))
      (y.tris.filter (fun t => triHasEdge t f.newD0 f.newD1)) := ht.filter _
  have hIxy : firstTriInternal x f.newD0 f.newD1 =
      firstTriInternal y f.newD0 f.newD1 := by
    cases hx : x.tris.filter (fun t => triHasEdge t f.newD0 f.newD1) with
    | nil =>
      rw [hx] at hpf
      exact absurd hpf.symm.eq_nil hfil
    | cons a l =>
      rw [hx] at hpf
      have ha : a ∈ y.tris.filter (fun t => triHasEdge t f.newD0 f.newD1) :=
        hpf.mem_iff.1 (List.mem_cons_self a l)
      have haI := hflag a ha
      show (((x.tris.filter
        (fun t => triHasEdge t f.newD0 f.newD1)).head?).map
          MTri.internal).getD false = _
      rw [hx]
      simpa using haI
  refine ⟨hv, hr, ?_, ?_⟩
  · exact (he.filter _).append_right _
  · show List.Perm ((x.tris.filter
      (fun t => ! triHasEdge t f.newD0 f.newD1)) ++
        [⟨f.oldD0, f.oldD1, f.newD0, firstTriInternal x f.newD0 f.newD1⟩,
         ⟨f.oldD0, f.oldD1, f.newD1, firstTriInternal x f.newD0 f.newD1⟩])
      ((y.tris.filter (fun t => ! triHasEdge t f.newD0 f.newD1)) ++
        [⟨f.oldD0, f.oldD1, f.newD0, firstTriInternal y f.newD0 f.newD1⟩,
         ⟨f.oldD0, f.oldD1, f.newD1, firstTriInternal y f.newD0 f.newD1⟩])
    rw [hIxy]
    exact (ht.filter _).append_right _

theorem undoStack_applyFlips (fs : List Flip) (s : TriState)
    (h : ValidFlipSeq s fs) :
    Restores (undoStack (applyFlips s fs) fs.reverse) s := by
  induction fs generalizing s with
  | nil => exact ⟨rfl, rfl, List.Perm.refl _, List.Perm.refl _⟩
  | cons f fs ih =>
    obtain ⟨hok, hseq⟩ := h
    have happ : applyFlips s (f :: fs) = applyFlips (applyFlip s f) fs := rfl
    have hrev : (f :: fs).reverse = fs.reverse ++ [f] := by simp
    rw [happ, hrev, undoStack_append]
    obtain ⟨hv, hr, he, ht⟩ := ih (applyFlip s f) hseq
    have hfilnew := applyFlip_filter_new s f hok
    have hI2 : firstTriInternal (applyFlip s f) f.newD0 f.newD1 =
        firstTriInternal s f.oldD0 f.oldD1 := by
      unfold firstTriInternal
      rw [hfilnew]
      rfl
    have hcong := undoFlip_congr _ (applyFlip s f) f hv hr he ht
      (by rw [hfilnew]; simp)
      (by
        rw [hfilnew, hI2]
        intro t htm
        simp only [List.mem_cons, List.not_mem_nil, or_false] at htm
        rcases htm with rfl | rfl <;> rfl)
    have hround := undoFlip_applyFlip s f hok
    exact ⟨hcong.1.trans hround.1, hcong.2.1.trans hround.2.1,
      hcong.2.2.1.trans hround.2.2.1, hcong.2.2.2.trans hround.2.2.2⟩

/-- C1 (corrected, kinetic half): when TranslationKinetic::undo replays the
flip stack of a valid flip sequence in reverse and resets the moving
vertex, the triangulation is restored: whatever intermediate position the
vertex had been moved to, the vertex list (with the moving vertex back at
its start position), the ring, and the edge and triangle collections (up
to storage order) all equal their pre-translation values. -/
theorem kinetic_undone_restores (s : TriState) (fs : List Flip) (orig : ℕ)
    (oldPos mid : Pt) (hseq : ValidFlipSeq s fs)
    (hpos : ∀ pr ∈ s.verts, pr.1 = orig → pr.2 = oldPos) :
    (kineticUndoRun (setPosition (applyFlips s fs) orig mid) fs.reverse orig
        oldPos).verts = s.verts ∧
    (kineticUndoRun (setPosition (applyFlips s fs) orig mid) fs.reverse orig
        oldPos).ring = s.ring ∧
    List.Perm (kineticUndoRun (setPosition (applyFlips s fs) orig mid)
        fs.reverse orig oldPos).edges s.edges ∧
    List.Perm (kineticUndoRun (setPosition (applyFlips s fs) orig mid)
        fs.reverse orig oldPos).tris s.tris := by
  obtain ⟨hv, hr, he, ht⟩ := undoStack_applyFlips fs s hseq
  unfold kineticUndoRun
  rw [undoStack_setPosition, setPosition_setPosition]
  refine ⟨?_, hr, he, ht⟩
  show (undoStack (applyFlips s fs) fs.reverse).verts.map _ = s.verts
  rw [hv]
  exact map_setPos_eq_self _ _ _ hpos

/-- Witness for the kinetic half of C1: flipping the diagonal (0, 1) of a
square to (2, 3) and undoing the single-entry stack restores the initial
triangulation, including the moving vertex's position after an
intermediate move. -/
theorem kinetic_undone_restores_witness :
    (ValidFlipSeq
        ⟨[(0, ⟨0, 0⟩), (1, ⟨1, 1⟩), (2, ⟨1, 0⟩), (3, ⟨0, 1⟩)], [0, 1, 2, 3],
          [⟨0, 2, .polygonK⟩, ⟨2, 1, .polygonK⟩, ⟨1, 3, .polygonK⟩,
            ⟨3, 0, .polygonK⟩, ⟨0, 1, .triangulationK⟩],
          [⟨0, 1, 2, true⟩, ⟨0, 1, 3, true⟩]⟩
        [⟨0, 1, 2, 3⟩] ∧
      (∀ pr ∈ [((0 : ℕ), (⟨0, 0⟩ : Pt)), (1, ⟨1, 1⟩), (2, ⟨1, 0⟩),
          (3, ⟨0, 1⟩)], pr.1 = 0 → pr.2 = ⟨0, 0⟩)) ∧
    (kineticUndoRun
        (setPosition
          (applyFlips
            ⟨[(0, ⟨0, 0⟩), (1, ⟨1, 1⟩), (2, ⟨1, 0⟩), (3, ⟨0, 1⟩)],
              [0, 1, 2, 3],
              [⟨0, 2, .polygonK⟩, ⟨2, 1, .polygonK⟩, ⟨1, 3, .polygonK⟩,
                ⟨3, 0, .polygonK⟩, ⟨0, 1, .triangulationK⟩],
              [⟨0, 1, 2, true⟩, ⟨0, 1, 3, true⟩]⟩
            [⟨0, 1, 2, 3⟩]) 0 ⟨1/2, 1/2⟩)
        [⟨0, 1, 2, 3⟩] 0 ⟨0, 0⟩).verts =
      [(0, ⟨0, 0⟩), (1, ⟨1, 1⟩), (2, ⟨1, 0⟩), (3, ⟨0, 1⟩)] := by
  have h1 : ValidFlipSeq
      ⟨[(0, ⟨0, 0⟩), (1, ⟨1, 1⟩), (2, ⟨1, 0⟩), (3, ⟨0, 1⟩)], [0, 1, 2, 3],
        [⟨0, 2, .polygonK⟩, ⟨2, 1, .polygonK⟩, ⟨1, 3, .polygonK⟩,
          ⟨3, 0, .polygonK⟩, ⟨0, 1, .triangulationK⟩],
        [⟨0, 1, 2, true⟩, ⟨0, 1, 3, true⟩]⟩
      [⟨0, 1, 2, 3⟩] := by
    refine ⟨⟨?_, ?_, ?_, ?_⟩, trivial⟩ <;> decide
  have h2 : ∀ pr ∈ [((0 : ℕ), (⟨0, 0⟩ : Pt)), (1, ⟨1, 1⟩), (2, ⟨1, 0⟩),
      (3, ⟨0, 1⟩)], pr.1 = 0 → pr.2 = ⟨0, 0⟩ := by decide
  have h3 := kinetic_undone_restores
    ⟨[(0, ⟨0, 0⟩), (1, ⟨1, 1⟩), (2, ⟨1, 0⟩), (3, ⟨0, 1⟩)], [0, 1, 2, 3],
      [⟨0, 2, .polygonK⟩, ⟨2, 1, .polygonK⟩, ⟨1, 3, .polygonK⟩,
        ⟨3, 0, .polygonK⟩, ⟨0, 1, .triangulationK⟩],
      [⟨0, 1, 2, true⟩, ⟨0, 1, 3, true⟩]⟩
    [⟨0, 1, 2, 3⟩] 0 ⟨0, 0⟩ ⟨1/2, 1/2⟩ h1 h2
  exact ⟨⟨h1, h2⟩, h3.1⟩

theorem ceITy1 : (ITy.iEdge = ITy.iNone) = False := eq_false (by decide)

theorem ceITy2 : (ITy.iEdge = ITy.iVertex) = False := eq_false (by decide)

theorem ceITy3 : (ITy.iNone = ITy.iVertex) = False := eq_false (by decide)

theorem ceITy4 : (ITy.iNone = ITy.iEdge) = False := eq_false (by decide)

theorem ceITy5 : (ITy.iVertex = ITy.iNone) = False := eq_false (by decide)

theorem ceITy6 : (ITy.iVertex = ITy.iEdge) = False := eq_false (by decide)

theorem ceCoordA0 : coordOf ceState 0 = ⟨0, 0⟩ := by
  norm_num [coordOf, ceState]

theorem ceCoordA1 : coordOf ceState 1 = ⟨-20, 0⟩ := by
  norm_num [coordOf, ceState]

theorem ceCoordA2 : coordOf ceState 2 = ⟨10, 5⟩ := by
  norm_num [coordOf, ceState]

theorem ceCoordB0 : coordOf ceS1 0 = ⟨0, 0⟩ := by
  norm_num [coordOf, ceS1, ceState]

theorem ceCoordB1 : coordOf ceS1 1 = ⟨-20, 0⟩ := by
  norm_num [coordOf, ceS1, ceState]

theorem ceCoordB2 : coordOf ceS1 2 = ⟨10, 5⟩ := by
  norm_num [coordOf, ceS1, ceState]

theorem ceCoordB3 : coordOf ceS1 3 = ⟨0, 15⟩ := by
  norm_num [coordOf, ceS1, ceState]

theorem ceDisp : checkIntersection true ⟨-20, 0⟩ ⟨15, 2⟩ ⟨0, 0⟩ ⟨10, 5⟩ =
    .iEdge := by
  norm_num [checkIntersection, checkIntersectionE, inBBox,
    signedAreaDouble, ptLt, tDet, signbit]

theorem ceAreaRd : signedAreaDouble ⟨0, 0⟩ ⟨-20, 0⟩ ⟨0, 15⟩ =
    (-300 : ℚ) := by
  norm_num [signedAreaDouble, ptLt, tDet]

theorem ceAreaWin : signedAreaDouble ⟨-20, 0⟩ ⟨0, 15⟩ ⟨10, 5⟩ =
    (-350 : ℚ) := by
  norm_num [signedAreaDouble, ptLt, tDet]

set_option maxHeartbeats 1000000 in
theorem ceOppDir_eval : bPSRC3OppositeDirection ceState 0 ⟨0, 0⟩ ⟨15, 2⟩
    1 2 4 = (ceS1, some ⟨.edgevisible, [1, 3, 2, 0], true, none⟩) := by
  norm_num [bPSRC3OppositeDirection, oppDirLoop, getEdgeTo, getT0, getT1,
    getOtherTriangle, getTriangleContaining, triEdges,
    getOtherEdgeContaining, trisWithEdge, triHasEdge, triHasVert,
    triOtherVertex, edgeHasVert, edgeConnects, edgeOtherVertex,
    deleteEdges, deleteEdge, coordOf, ceState, ceS1, signedAreaDouble,
    ptLt, tDet, signbit]

set_option maxHeartbeats 1000000 in
theorem ceSPOld_eval : bPSRC3SPOld ceS1 0 1 2 ⟨0, 0⟩ ⟨15, 2⟩ 4 =
    (ceS1, none, none, none, true) := by
  norm_num [bPSRC3SPOld, spOldLoop, spOldP2Loop, checkVisibility, visScan,
    visTrace, getSurroundingEdges, checkIntersection, checkIntersectionE,
    inBBox, epsIntD, getEdgeTo, getT0, getT1, getOtherTriangle,
    getTriangleContaining, getTriangleNotContaining, triEdges,
    getOtherEdgeContaining, getEdgeNotContaining, getOtherEdges,
    trisWithEdge, triHasEdge, triHasVert, triOtherVertex, edgeHasVert,
    edgeConnects, edgeOtherVertex, deleteEdges, deleteEdge, addEdgeT,
    addTriT, coordOf, ceS1, ceState, signedAreaDouble, ptLt, tDet,
    signbit, insideTriangle, triInside, ceITy1, ceITy2, ceITy3, ceITy4,
    ceITy5, ceITy6]

set_option maxHeartbeats 1000000 in
theorem ceCase3_eval : buildPolygonsSideRemainCase3 ceState 0 1 2 ⟨0, 0⟩
    ⟨15, 2⟩ 4 =
    ⟨ceS1, some ⟨.edgevisible, [1, 3, 2, 0], true, none⟩, none, none,
      none, true⟩ := by
  simp only [buildPolygonsSideRemainCase3, ceCoordA0, ceCoordA1,
    ceCoordA2, ceDisp, ceITy1, ceITy2, ceITy3, ceITy4, ceITy5, ceITy6,
    ne_eq, not_false_iff, ite_true, ite_false, if_true, if_false,
    ceOppDir_eval, ceSPOld_eval]

set_option maxHeartbeats 1000000 in
theorem ceP0Tri_eval : polyTriangulate ceS1
    ⟨.edgevisible, [1, 3, 2, 0], true, none⟩ 4 = ceFinal := by
  have hLoop : visLoopS 1 (-300 : ℚ) true 4 (ceS1, [1, 3, 2, 0]) =
      (addTriT (addEdgeT ceS1 1 2) 1 3 2 true, [0, 1, 2]) := by
    norm_num [visLoopS, visStepS, rotateRight, ceCoordB1, ceCoordB2,
      ceCoordB3, ceAreaWin, signbit]
  show triangulateVisibleS ceS1 [1, 3, 2, 0] true 4 = ceFinal
  unfold triangulateVisibleS
  simp only [List.getLast?, List.getLast, List.headD, ceCoordB0,
    ceCoordB1, ceCoordB3, ceAreaRd]
  rw [hLoop]
  norm_num [addTriT, addEdgeT, ceS1, ceState, ceFinal]

set_option maxHeartbeats 1000000 in
theorem ceExecute_eval : executeSideRemainCase3 ceState 0 1 2 15 2 4 =
    (.undone, ceFinal) := by
  norm_num [executeSideRemainCase3, ceCoordA0, ceCase3_eval, ceP0Tri_eval]

/-- C1 counterexample: in the concrete state ceState the constructor's
sideChange flag is false and both interiority tests of the dispatcher are
false, so TranslationRetriangulation::execute runs exactly the
side-remain case-3 path embodied by executeSideRemainCase3.  That run
returns UNDONE — the case-3 visibility check fails — but the
triangulation has been mutated: bPSRC3OppositeDirection deleted the fan
edge (0, 3) before the abort, and the aborted run still retriangulates
the polygon p0, inserting the new diagonal (1, 2).  The final
triangulation therefore differs from the pre-call one, refuting the
claim that the retriangulation variant returns UNDONE only when it
aborted before mutating. -/
theorem retriangulation_undone_mutates :
    sideChangeOf ceState 0 1 2 15 2 = false ∧
    insideTriangle (coordOf ceState 1) (coordOf ceState 0)
      (coordOf ceState 2) ⟨15, 2⟩ = false ∧
    insideTriangle (coordOf ceState 1) ⟨15, 2⟩ (coordOf ceState 2)
      (coordOf ceState 0) = false ∧
    (executeSideRemainCase3 ceState 0 1 2 15 2 4).1 = .undone ∧
    (⟨1, 2, .triangulationK⟩ : MEdge) ∈
      (executeSideRemainCase3 ceState 0 1 2 15 2 4).2.edges ∧
    (⟨1, 2, .triangulationK⟩ : MEdge) ∉ ceState.edges ∧
    (⟨0, 3, .triangulationK⟩ : MEdge) ∈ ceState.edges ∧
    (⟨0, 3, .triangulationK⟩ : MEdge) ∉
      (executeSideRemainCase3 ceState 0 1 2 15 2 4).2.edges := by
  refine ⟨?_, ?_, ?_, ?_, ?_, ?_, ?_, ?_⟩
  · norm_num [sideChangeOf, ceCoordA0, ceCoordA1, ceCoordA2,
      signedAreaDouble, ptLt, tDet, signbit]
  · norm_num [insideTriangle, ceCoordA0, ceCoordA1, ceCoordA2,
      signedAreaDouble, ptLt, tDet, signbit]
  · norm_num [insideTriangle, ceCoordA0, ceCoordA1, ceCoordA2,
      signedAreaDouble, ptLt, tDet, signbit]
  · rw [ceExecute_eval]
  · rw [ceExecute_eval]
    decide
  · decide
  · decide
  · rw [ceExecute_eval]
    decide
